import Mathlib

/-!
Shallow embedding of the testssl.sh audit engine (`src/audit-engine.ts`,
class `AuditEngine`) and verification of its specification claims.

Modelling conventions:
* JavaScript numbers are modelled exactly as unnormalized integer
  fractions (`Frac`, value `num / den`, all constructions keep `den` a
  positive power of ten or another positive constant); `JsNum` adds the
  `NaN` and infinity points that `parseFloat` can produce.  Comparisons
  are cross-multiplications, proved equivalent to the rational order.
* JavaScript strings are Lean `String`s; case folding is ASCII (the
  engine only ever compares ASCII vocabulary).  Optional fields are
  `Option String`; JS truthiness of a string field (`undefined` and `""`
  are both falsy) is `strTruthy`.
* `Date` values are epoch milliseconds (`Int`); `new Date(iso)` is
  `parseIsoDateTime`, accepting the ISO shapes the engine can actually
  construct, and validating calendar ranges the way V8 does for ISO
  strings.  The ambient `new Date()` of the certificate rule is passed
  in as an explicit `now : Int` parameter.
* `details` payloads are association lists over a small JSON-value type
  `DetailVal` (`undefined` is `DetailVal.undef`).
-/

/-- An unnormalized fraction `num / den`; every construction in this file
keeps `den` positive, so comparisons may cross-multiply. -/
structure Frac where
  num : Int
  den : Int
deriving DecidableEq, Repr

/-- The rational value of a fraction. -/
def Frac.val (f : Frac) : ℚ := (f.num : ℚ) / (f.den : ℚ)

/-- Strict order on fractions with positive denominators. -/
def fracLt (a b : Frac) : Bool := a.num * b.den < b.num * a.den

/-- Non-strict order on fractions with positive denominators. -/
def fracLe (a b : Frac) : Bool := a.num * b.den ≤ b.num * a.den

/-- `Math.floor` on a fraction with positive denominator. -/
def fracFloor (f : Frac) : Int := Int.fdiv f.num f.den

/-- A JavaScript number as produced by `parseFloat`: `NaN`, the two
infinities, or a finite value. -/
inductive JsNum where
  | nan
  | posInf
  | negInf
  | num (v : Frac)
deriving DecidableEq, Repr

/-- The JavaScript `<` comparison on numbers: any comparison with `NaN`
is false. -/
def jsLt : JsNum → JsNum → Bool
  | .num a, .num b => fracLt a b
  | .negInf, .num _ => true
  | .negInf, .posInf => true
  | .num _, .posInf => true
  | _, _ => false

/-- Numeric value of a digit character. -/
def digitVal (c : Char) : Nat := c.toNat - 48

/-- The natural number denoted by a list of decimal digits. -/
def natOfDigits (ds : List Char) : Nat := ds.foldl (fun a c => a * 10 + digitVal c) 0

/-- Whitespace skipped by `parseFloat`. -/
def jsWhitespace (c : Char) : Bool :=
  c = ' ' || c = '\t' || c = '\n' || c = '\r' || c = '\x0b' || c = '\x0c'

/-- Exponent digits of a JS float literal (empty digits after `e` are
ignored, as `parseFloat` takes the longest valid numeric prefix). -/
def expVal (u : List Char) (neg : Bool) : Int :=
  let ds := u.takeWhile Char.isDigit
  if ds.isEmpty then 0 else if neg then -(natOfDigits ds : Int) else (natOfDigits ds : Int)

/-- Exponent part (`e`/`E` with optional sign) of a JS float literal. -/
def parseExpPart : List Char → Int
  | c :: t =>
    if c = 'e' || c = 'E' then
      match t with
      | [] => expVal [] false
      | d :: u =>
        if d = '+' then expVal u false
        else if d = '-' then expVal u true
        else expVal (d :: u) false
    else 0
  | [] => 0

/-- Split an optional fraction part `.digits` off the remainder of a JS
float literal, returning the fraction digits and the rest. -/
def fracDigitsPart : List Char → List Char × List Char
  | [] => ([], [])
  | c :: t =>
    if c = '.' then (t.takeWhile Char.isDigit, t.drop (t.takeWhile Char.isDigit).length)
    else ([], c :: t)

/-- The finite value `(-1)^neg * (intPart.fracPart) * 10^ex` as an
unnormalized fraction over a power of ten. -/
def parseFloatTail (ip fp : List Char) (ex : Int) (neg : Bool) : JsNum :=
  let mant : Int := (natOfDigits ip * 10 ^ fp.length + natOfDigits fp : Nat)
  let num0 := if 0 ≤ ex then mant * 10 ^ ex.toNat else mant
  let den0 : Int := if 0 ≤ ex then 10 ^ fp.length else 10 ^ fp.length * 10 ^ (-ex).toNat
  .num ⟨if neg then -num0 else num0, den0⟩

/-- Magnitude part of `parseFloat` after sign handling: `Infinity`, or
`digits [. digits] [exponent]`, else `NaN`. -/
def parseFloatMag (cs : List Char) (neg : Bool) : JsNum :=
  if ("Infinity".data).isPrefixOf cs then (if neg then .negInf else .posInf)
  else
    let ip := cs.takeWhile Char.isDigit
    let r1 := cs.drop ip.length
    let fp := (fracDigitsPart r1).1
    let r2 := (fracDigitsPart r1).2
    if ip.isEmpty && fp.isEmpty then .nan
    else parseFloatTail ip fp (parseExpPart r2) neg

/-- Strip an optional leading sign, returning whether it was negative
and the remainder. -/
def signSplit : List Char → Bool × List Char
  | [] => (false, [])
  | c :: t =>
    if c = '+' then (false, t)
    else if c = '-' then (true, t)
    else (false, c :: t)

/-- JavaScript `parseFloat`: skip whitespace, optional sign, then the
longest numeric prefix (or `Infinity`); `NaN` when none. -/
def jsParseFloat (s : String) : JsNum :=
  let p := signSplit (s.data.dropWhile jsWhitespace)
  parseFloatMag p.2 p.1

/-- JS truthiness of an optional string field (`undefined` and `""` are
falsy). -/
def strTruthy : Option String → Bool
  | none => false
  | some s => !s.data.isEmpty

/-- JS truthiness of an optional boolean field. -/
def boolTruthy : Option Bool → Bool
  | some b => b
  | none => false

/-- ASCII lowercasing of a string (JS `toLowerCase` on the engine's
ASCII vocabulary), on the underlying character list. -/
def jsStrLower (s : String) : String := String.mk (s.data.map Char.toLower)

/-- ASCII uppercasing of a string (JS `toUpperCase` on the engine's
ASCII vocabulary), on the underlying character list. -/
def jsStrUpper (s : String) : String := String.mk (s.data.map Char.toUpper)

/-- Boolean substring containment scan (JS `String.prototype.includes`
on the underlying character lists). -/
def containsSub (pat : List Char) : List Char → Bool
  | [] => pat.isPrefixOf ([] : List Char)
  | c :: t => pat.isPrefixOf (c :: t) || containsSub pat t

/-- A regex word character (`\w` = ASCII letters, digits, underscore). -/
def isWordChar (c : Char) : Bool := c.isAlpha || c.isDigit || c = '_'

/-- Boundary condition before a match position (`none` = start of text). -/
def boundaryOk : Option Char → Bool
  | none => true
  | some c => !isWordChar c

/-- Boundary condition after a match (end of text or a non-word char). -/
def headBoundary : List Char → Bool
  | [] => true
  | c :: _ => !isWordChar c

/-- Word-bounded match of `pat` at the current position, given the
previous character. -/
def wordAt (pat : List Char) (prev : Option Char) (l : List Char) : Bool :=
  pat.isPrefixOf l && boundaryOk prev && headBoundary (l.drop pat.length)

/-- Scan for a word-bounded occurrence of `pat`, tracking the previous
character. -/
def hasWordAux (pat : List Char) (prev : Option Char) : List Char → Bool
  | [] => wordAt pat prev []
  | c :: t => wordAt pat prev (c :: t) || hasWordAux pat (some c) t

/-- The JS regex test `/\bpat\b/` over a character list. -/
def hasWord (pat : List Char) (s : List Char) : Bool := hasWordAux pat none s

/-- `isOffered` from `audit-engine.ts`: false for empty text or any text
containing "not offered" (after lowercasing); otherwise a whole-word
search for "offered". -/
def isOffered (finding : String) : Bool :=
  if finding.data.isEmpty then false
  else
    let normalized := jsStrLower finding
    if containsSub ("not offered".data) normalized.data then false
    else hasWord ("offered".data) normalized.data

/-- Replace the first occurrence of character `a` by `b` (JS
`replace(a, b)` with single-character pattern). -/
def jsReplaceFirstChar (a b : Char) : List Char → List Char
  | [] => []
  | c :: t => if c = a then b :: t else c :: jsReplaceFirstChar a b t

/-- Remove the first occurrence of the substring `pat` (JS
`replace(pat, '')`). -/
def removeFirstOcc (pat : List Char) : List Char → List Char
  | [] => if pat.isPrefixOf ([] : List Char) then ([] : List Char).drop pat.length else []
  | c :: t => if pat.isPrefixOf (c :: t) then (c :: t).drop pat.length else c :: removeFirstOcc pat t

/-- Match of `/^TLS1(_\d+)?$/`: `some none` for `TLS1`, `some (some ds)`
for `TLS1_<digits>`, `none` otherwise (anchored: the digits are the
whole remainder of the id). -/
def tlsIdGroup (id : String) : Option (Option (List Char)) :=
  if id = "TLS1" then some none
  else if ("TLS1_".data).isPrefixOf id.data then
    let ds := id.data.drop 5
    if !ds.isEmpty && ds.all Char.isDigit then some (some ds) else none
  else none

/-- The version number the engine computes from a matched protocol id:
`parseFloat("1." + digits)` for `TLS1_<digits>`, `1.0` for `TLS1`. -/
def tlsGroupVersion : Option (List Char) → JsNum
  | some ds => jsParseFloat ("1." ++ String.mk ds)
  | none => .num ⟨1, 1⟩

/-- The own properties of the `GRADE_RANKING` object literal from
`audit-engine.ts` (higher is better). -/
def gradeRank : String → Option Nat
  | "A+" => some 9
  | "A" => some 8
  | "A-" => some 7
  | "B" => some 6
  | "C" => some 5
  | "D" => some 4
  | "E" => some 3
  | "F" => some 2
  | "T" => some 1
  | _ => none

/-- `GRADE_RANKING` is a plain object literal, so a bracket read
`GRADE_RANKING[key]` that misses every own property continues along the
prototype chain into `Object.prototype`.  For those keys the read yields
the inherited member — a function, or `Object.prototype` itself for
`__proto__` — and NOT `undefined`.  The stored string is the member's
`ToPrimitive` conversion under V8 (`Function.prototype.toString` of a
native method; `"[object Object]"` for `__proto__`), which is what a
subsequent relational comparison consumes. -/
def OBJECT_PROTO_MEMBERS : String → Option String
  | "constructor" => some "function Object() \x7b [native code] \x7d"
  | "hasOwnProperty" => some "function hasOwnProperty() \x7b [native code] \x7d"
  | "isPrototypeOf" => some "function isPrototypeOf() \x7b [native code] \x7d"
  | "propertyIsEnumerable" => some "function propertyIsEnumerable() \x7b [native code] \x7d"
  | "toLocaleString" => some "function toLocaleString() \x7b [native code] \x7d"
  | "toString" => some "function toString() \x7b [native code] \x7d"
  | "valueOf" => some "function valueOf() \x7b [native code] \x7d"
  | "__defineGetter__" => some "function __defineGetter__() \x7b [native code] \x7d"
  | "__defineSetter__" => some "function __defineSetter__() \x7b [native code] \x7d"
  | "__lookupGetter__" => some "function __lookupGetter__() \x7b [native code] \x7d"
  | "__lookupSetter__" => some "function __lookupSetter__() \x7b [native code] \x7d"
  | "__proto__" => some "[object Object]"
  | _ => none

/-- The value a JS property read `GRADE_RANKING[key]` produces: an own
numeric rank, a member inherited from `Object.prototype` (carrying its
`ToPrimitive` string), or `undefined`. -/
inductive GradeLookup where
  | rank (n : Nat)
  | protoMember (s : String)
  | undef
deriving DecidableEq, Repr

/-- The JS property read `GRADE_RANKING[key]`: own properties first, then
the `Object.prototype` chain, else `undefined`. -/
def gradeLookup (key : String) : GradeLookup :=
  match gradeRank key with
  | some n => .rank n
  | none =>
    match OBJECT_PROTO_MEMBERS key with
    | none => .undef
    | some s => .protoMember s

/-- JS string relational comparison: lexicographic by UTF-16 code unit
(every string compared here is ASCII, so code points coincide). -/
def strLexLt : List Char → List Char → Bool
  | [], [] => false
  | [], _ :: _ => true
  | _ :: _, [] => false
  | a :: as, b :: bs =>
    if a.toNat < b.toNat then true
    else if b.toNat < a.toNat then false
    else strLexLt as bs

/-- The JS comparison `actualRank < minRank` on looked-up grade values.
Two numbers compare numerically.  A number against an inherited member
compares through `ToNumber` of the member's string, which is `NaN`, so
the comparison is false.  Two inherited members both convert to strings,
and two strings compare lexicographically.  A comparison involving
`undefined` is a `NaN` comparison, hence false (the evaluators never
reach that case: both operands have already passed the
`=== undefined` guards). -/
def jsRankLt : GradeLookup → GradeLookup → Bool
  | .rank a, .rank b => decide (a < b)
  | .protoMember s, .protoMember t => strLexLt s.data t.data
  | _, _ => false

/-- One scan line item from a testssl.sh report (`TestSSLScanItem`); the
engine reads only these four fields. -/
structure ScanItem where
  id : String
  ip : Option String := none
  severity : Option String := none
  finding : Option String := none
deriving DecidableEq, Repr

/-- A JSON-ish value stored in a result's `details` payload. -/
inductive DetailVal where
  | str (s : String)
  | nat (n : Nat)
  | int (i : Int)
  | jsn (n : JsNum)
  | protoVal (s : String)
  | undef
deriving DecidableEq, Repr

/-- Encode a looked-up grade value in a details payload: an own rank is
the stored number, an inherited `Object.prototype` member is the
non-numeric object tagged with its string form. -/
def gradeLookupVal : GradeLookup → DetailVal
  | .rank n => .nat n
  | .undef => .undef
  | .protoMember s => .protoVal s

/-- Encode an optional string field as a detail value (`undefined` when
absent). -/
def optStrVal : Option String → DetailVal
  | none => .undef
  | some s => .str s

/-- A violation record (violations-only mode). -/
structure Violation where
  rule : String
  message : String
  details : List (String × DetailVal)
deriving DecidableEq, Repr

/-- A full audit result (pass or fail). -/
structure AuditResult where
  rule : String
  passed : Bool
  message : String
  details : List (String × DetailVal)
deriving DecidableEq, Repr

/-- Drop the `passed` flag of an audit result. -/
def toViolation (r : AuditResult) : Violation :=
  { rule := r.rule, message := r.message, details := r.details }

/-- The `rules` object of `RulesConfig` (`rules-config.ts`); all fields
optional.  `allowedCiphers` is omitted: the engine never reads it. -/
structure Rules where
  minTlsVersion : Option String := none
  blockedCiphers : Option (List String) := none
  requireForwardSecrecy : Option Bool := none
  maxCertificateExpiry : Option Int := none
  minGrade : Option String := none
deriving DecidableEq, Repr

/-- The configuration object handed to `AuditEngine`. -/
structure RulesConfig where
  rules : Rules
deriving DecidableEq, Repr

/-- `formatIpSuffix` from `audit-engine.ts`. -/
def formatIpSuffix : Option String → String
  | none => ""
  | some ip => if ip.data.isEmpty then "" else " [" ++ ip ++ "]"

/-- `MILLISECONDS_PER_DAY` from `audit-engine.ts`. -/
def MILLISECONDS_PER_DAY : Int := 1000 * 60 * 60 * 24

/-- Gregorian leap-year test. -/
def isLeapYear (y : Nat) : Bool := y % 4 = 0 && (y % 100 != 0 || y % 400 = 0)

/-- Length of a month in the proleptic Gregorian calendar. -/
def daysInMonth (y : Nat) (m : Nat) : Nat :=
  if m = 2 then (if isLeapYear y then 29 else 28)
  else if m = 4 || m = 6 || m = 9 || m = 11 then 30
  else 31

/-- Days from the epoch 1970-01-01 to the civil date `y-m-d`
(Hinnant's algorithm, floor division). -/
def daysFromCivil (y : Int) (m d : Nat) : Int :=
  let y2 : Int := if m ≤ 2 then y - 1 else y
  let era : Int := Int.fdiv y2 400
  let yoe : Nat := (y2 - era * 400).toNat
  let doy : Nat := (153 * (if m > 2 then m - 3 else m + 9) + 2) / 5 + d - 1
  let doe : Nat := yoe * 365 + yoe / 4 - yoe / 100 + doy
  era * 146097 + (doe : Int) - 719468

/-- Civil date `(y, m, d)` of a day count from the epoch (inverse of
`daysFromCivil`). -/
def civilFromDays (z : Int) : Int × Nat × Nat :=
  let z2 := z + 719468
  let era := Int.fdiv z2 146097
  let doe := (z2 - era * 146097).toNat
  let yoe := (doe - doe / 1460 + doe / 36524 - doe / 146096) / 365
  let y : Int := (yoe : Int) + era * 400
  let doy := doe - (365 * yoe + yoe / 4 - yoe / 100)
  let mp := (5 * doy + 2) / 153
  let d := doy - (153 * mp + 2) / 5 + 1
  let m := if mp < 10 then mp + 3 else mp - 9
  (if m ≤ 2 then y + 1 else y, m, d)

/-- Left-pad a number to two digits. -/
def pad2 (n : Nat) : String := if n < 10 then "0" ++ toString n else toString n

/-- Left-pad a number to three digits. -/
def pad3 (n : Nat) : String :=
  if n < 10 then "00" ++ toString n else if n < 100 then "0" ++ toString n else toString n

/-- Left-pad a number to four digits. -/
def pad4 (n : Nat) : String :=
  if n < 10 then "000" ++ toString n
  else if n < 100 then "00" ++ toString n
  else if n < 1000 then "0" ++ toString n
  else toString n

/-- `Date.prototype.toISOString` for an epoch-milliseconds value (years
0000-9999, the range the certificate rule can produce). -/
def epochMsToIso (ms : Int) : String :=
  let day := Int.fdiv ms 86400000
  let rem := (ms - day * 86400000).toNat
  let c := civilFromDays day
  let hh := rem / 3600000
  let mi := rem / 60000 % 60
  let ss := rem / 1000 % 60
  let msp := rem % 1000
  pad4 c.1.toNat ++ "-" ++ pad2 c.2.1 ++ "-" ++ pad2 c.2.2 ++ "T" ++ pad2 hh ++ ":" ++
    pad2 mi ++ ":" ++ pad2 ss ++ "." ++ pad3 msp ++ "Z"

/-- Validity of an hour/minute/second triple in an ISO string (hour 24
only as 24:00:00, as V8 accepts). -/
def validHms (hh mi ss : Nat) : Bool :=
  (hh ≤ 23 && mi ≤ 59 && ss ≤ 59) || (hh = 24 && mi = 0 && ss = 0)

/-- `new Date(iso).getTime()` for the UTC ISO shapes the engine can
construct (`YYYY-MM-DDTHH:mm:ssZ` and `YYYY-MM-DDTHH:mmZ`), with V8's
calendar-range validation; `none` is an Invalid Date. -/
def parseIsoDateTime (s : String) : Option Int :=
  match s.data with
  | [y1, y2, y3, y4, '-', m1, m2, '-', d1, d2, 'T', h1, h2, ':', n1, n2, ':', s1, s2, 'Z'] =>
    if [y1, y2, y3, y4, m1, m2, d1, d2, h1, h2, n1, n2, s1, s2].all Char.isDigit then
      let y := 1000 * digitVal y1 + 100 * digitVal y2 + 10 * digitVal y3 + digitVal y4
      let mo := 10 * digitVal m1 + digitVal m2
      let dd := 10 * digitVal d1 + digitVal d2
      let hh := 10 * digitVal h1 + digitVal h2
      let mi := 10 * digitVal n1 + digitVal n2
      let ss := 10 * digitVal s1 + digitVal s2
      if 1 ≤ mo && mo ≤ 12 && 1 ≤ dd && dd ≤ daysInMonth y mo && validHms hh mi ss then
        some (daysFromCivil y mo dd * 86400000 + ((hh * 3600 + mi * 60 + ss : Nat) : Int) * 1000)
      else none
    else none
  | [y1, y2, y3, y4, '-', m1, m2, '-', d1, d2, 'T', h1, h2, ':', n1, n2, 'Z'] =>
    if [y1, y2, y3, y4, m1, m2, d1, d2, h1, h2, n1, n2].all Char.isDigit then
      let y := 1000 * digitVal y1 + 100 * digitVal y2 + 10 * digitVal y3 + digitVal y4
      let mo := 10 * digitVal m1 + digitVal m2
      let dd := 10 * digitVal d1 + digitVal d2
      let hh := 10 * digitVal h1 + digitVal h2
      let mi := 10 * digitVal n1 + digitVal n2
      if 1 ≤ mo && mo ≤ 12 && 1 ≤ dd && dd ≤ daysInMonth y mo && validHms hh mi 0 then
        some (daysFromCivil y mo dd * 86400000 + ((hh * 3600 + mi * 60 : Nat) : Int) * 1000)
      else none
    else none
  | _ => none

/-- `parseCertificateDate` from `audit-engine.ts`: replace the first
space by `T`, append seconds (`:59` for notAfter, `:00` otherwise) and a
`Z`, then parse as a UTC date. -/
def parseCertificateDate (dateString : String) (isNotAfter : Bool) : Option Int :=
  let seconds := if isNotAfter then ":59" else ":00"
  let isoString := String.mk (jsReplaceFirstChar ' ' 'T' dateString.data) ++ seconds ++ "Z"
  parseIsoDateTime isoString

/-- Details payload `{ minGrade, actualGrade }`. -/
def gradeDetails (minGrade actualGrade : String) : List (String × DetailVal) :=
  [("minGrade", .str minGrade), ("actualGrade", .str actualGrade)]

/-- Details payload `{ minGrade, actualGrade, minRank, actualRank }`,
storing the looked-up values themselves. -/
def gradeRankDetails (minGrade actualGrade : String) (minRank actualRank : GradeLookup) :
    List (String × DetailVal) :=
  [("minGrade", .str minGrade), ("actualGrade", .str actualGrade),
   ("minRank", gradeLookupVal minRank), ("actualRank", gradeLookupVal actualRank)]

/-- Message for an unrecognized configured minimum grade. -/
def gradeInvalidMinMsg (minGrade : String) : String :=
  "Invalid minimum grade specified: " ++ minGrade

/-- Message for an unrecognized actual grade. -/
def gradeUnknownMsg (actualGrade : String) : String :=
  "Unknown grade received: " ++ actualGrade

/-- Message for a grade below the configured minimum. -/
def gradeFailMsg (minGrade actualGrade : String) : String :=
  "Overall grade " ++ actualGrade ++ " does not meet minimum requirement of " ++ minGrade

/-- Message for a grade meeting the configured minimum. -/
def gradePassMsg (minGrade actualGrade : String) : String :=
  "Grade " ++ actualGrade ++ " meets the minimum requirement of " ++ minGrade

/-- `checkOverallGrade` from `audit-engine.ts` (violations-only mode). -/
def checkOverallGrade (cfg : RulesConfig) (results : List ScanItem) : List Violation :=
  match cfg.rules.minGrade with
  | none => []
  | some minGrade =>
    if minGrade.data.isEmpty then []
    else
      match results.find? (fun item => item.id == "overall_grade") with
      | none => []
      | some gradeItem =>
        match gradeItem.finding with
        | none => []
        | some actualGrade =>
          if actualGrade.data.isEmpty then []
          else
            if gradeLookup minGrade = GradeLookup.undef then
              [{ rule := "overall-grade", message := gradeInvalidMinMsg minGrade,
                 details := gradeDetails minGrade actualGrade }]
            else if gradeLookup actualGrade = GradeLookup.undef then
              [{ rule := "overall-grade", message := gradeUnknownMsg actualGrade,
                 details := gradeDetails minGrade actualGrade }]
            else if jsRankLt (gradeLookup actualGrade) (gradeLookup minGrade) then
              [{ rule := "overall-grade", message := gradeFailMsg minGrade actualGrade,
                 details := gradeRankDetails minGrade actualGrade (gradeLookup minGrade)
                   (gradeLookup actualGrade) }]
            else []

/-- `getOverallGradeResults` from `audit-engine.ts` (full mode). -/
def getOverallGradeResults (cfg : RulesConfig) (results : List ScanItem) : List AuditResult :=
  match cfg.rules.minGrade with
  | none => []
  | some minGrade =>
    if minGrade.data.isEmpty then []
    else
      match results.find? (fun item => item.id == "overall_grade") with
      | none => []
      | some gradeItem =>
        match gradeItem.finding with
        | none => []
        | some actualGrade =>
          if actualGrade.data.isEmpty then []
          else
            if gradeLookup minGrade = GradeLookup.undef then
              [{ rule := "overall-grade", passed := false,
                 message := gradeInvalidMinMsg minGrade,
                 details := gradeDetails minGrade actualGrade }]
            else if gradeLookup actualGrade = GradeLookup.undef then
              [{ rule := "overall-grade", passed := false,
                 message := gradeUnknownMsg actualGrade,
                 details := gradeDetails minGrade actualGrade }]
            else if jsRankLt (gradeLookup actualGrade) (gradeLookup minGrade) then
              [{ rule := "overall-grade", passed := false,
                 message := gradeFailMsg minGrade actualGrade,
                 details := gradeRankDetails minGrade actualGrade (gradeLookup minGrade)
                   (gradeLookup actualGrade) }]
            else
              [{ rule := "overall-grade", passed := true,
                 message := gradePassMsg minGrade actualGrade,
                 details := gradeRankDetails minGrade actualGrade (gradeLookup minGrade)
                   (gradeLookup actualGrade) }]

/-- The filter selecting TLS protocol records:
`item.id && /^TLS1(_\d+)?$/.test(item.id) && item.finding`. -/
def tlsProtocolFilter (item : ScanItem) : Bool :=
  !item.id.data.isEmpty && (tlsIdGroup item.id).isSome && strTruthy item.finding

/-- The protocol id with the first underscore replaced by a dot
(`protocol.id.replace('_', '.')`). -/
def dotTlsId (id : String) : String := String.mk (jsReplaceFirstChar '_' '.' id.data)

/-- Details payload `{ protocol, finding, version, ip }`. -/
def tlsDetails (protocol finding : String) (versionNum : JsNum) (ip : Option String) :
    List (String × DetailVal) :=
  [("protocol", .str protocol), ("finding", .str finding),
   ("version", .jsn versionNum), ("ip", optStrVal ip)]

/-- Message for an offered TLS version below the minimum. -/
def tlsFailMsg (id finding minVersion : String) (ip : Option String) : String :=
  "Insecure TLS version " ++ dotTlsId id ++ " is enabled (finding: \"" ++ finding ++
    "\", minimum required: TLS " ++ minVersion ++ ")" ++ formatIpSuffix ip

/-- Message for an offered TLS version meeting the minimum. -/
def tlsPassOfferedMsg (id minVersion : String) (ip : Option String) : String :=
  "TLS version " ++ dotTlsId id ++ " meets the minimum requirement of TLS " ++ minVersion ++
    formatIpSuffix ip

/-- Message for a below-minimum TLS version that is not offered. -/
def tlsPassNotOfferedMsg (id finding : String) (ip : Option String) : String :=
  "TLS version " ++ dotTlsId id ++ " is not offered (finding: \"" ++ finding ++ "\")" ++
    formatIpSuffix ip

/-- `checkTlsVersion` from `audit-engine.ts` (violations-only mode). -/
def checkTlsVersion (cfg : RulesConfig) (results : List ScanItem) : List Violation :=
  match cfg.rules.minTlsVersion with
  | none => []
  | some minVersion =>
    if minVersion.data.isEmpty then []
    else
      let minVersionNum := jsParseFloat minVersion
      let tlsProtocols := results.filter tlsProtocolFilter
      tlsProtocols.flatMap (fun protocol =>
        let finding := protocol.finding.getD ""
        if isOffered finding then
          match tlsIdGroup protocol.id with
          | none => []
          | some g =>
            let versionNum := tlsGroupVersion g
            if jsLt versionNum minVersionNum then
              [{ rule := "min-tls-version",
                 message := tlsFailMsg protocol.id finding minVersion protocol.ip,
                 details := tlsDetails protocol.id finding versionNum protocol.ip }]
            else []
        else [])

/-- `getTlsVersionResults` from `audit-engine.ts` (full mode). -/
def getTlsVersionResults (cfg : RulesConfig) (results : List ScanItem) : List AuditResult :=
  match cfg.rules.minTlsVersion with
  | none => []
  | some minVersion =>
    if minVersion.data.isEmpty then []
    else
      let minVersionNum := jsParseFloat minVersion
      let tlsProtocols := results.filter tlsProtocolFilter
      tlsProtocols.flatMap (fun protocol =>
        let finding := protocol.finding.getD ""
        match tlsIdGroup protocol.id with
        | none => []
        | some g =>
          let versionNum := tlsGroupVersion g
          if isOffered finding then
            if jsLt versionNum minVersionNum then
              [{ rule := "min-tls-version", passed := false,
                 message := tlsFailMsg protocol.id finding minVersion protocol.ip,
                 details := tlsDetails protocol.id finding versionNum protocol.ip }]
            else
              [{ rule := "min-tls-version", passed := true,
                 message := tlsPassOfferedMsg protocol.id minVersion protocol.ip,
                 details := tlsDetails protocol.id finding versionNum protocol.ip }]
          else
            if jsLt versionNum minVersionNum then
              [{ rule := "min-tls-version", passed := true,
                 message := tlsPassNotOfferedMsg protocol.id finding protocol.ip,
                 details := tlsDetails protocol.id finding versionNum protocol.ip }]
            else [])

/-- The filter selecting cipher-list records:
`item.id && item.id.startsWith('cipherlist_') && item.finding`
(`startsWith` on the underlying character lists). -/
def cipherItemFilter (item : ScanItem) : Bool :=
  !item.id.data.isEmpty && ("cipherlist_".data).isPrefixOf item.id.data && strTruthy item.finding

/-- `item.id.replace('cipherlist_', '')`. -/
def cipherNameOf (id : String) : String :=
  String.mk (removeFirstOcc ("cipherlist_".data) id.data)

/-- Case-insensitive containment test on cipher names
(`cipherName.toUpperCase().includes(blocked.toUpperCase())`). -/
def upperContains (name pat : String) : Bool :=
  containsSub ((jsStrUpper pat).data) ((jsStrUpper name).data)

/-- Details payload `{ cipher, blocked, id, ip }`. -/
def cipherDetails (cipher blocked id : String) (ip : Option String) :
    List (String × DetailVal) :=
  [("cipher", .str cipher), ("blocked", .str blocked), ("id", .str id), ("ip", optStrVal ip)]

/-- Message for an offered blocked cipher suite. -/
def cipherFailMsg (cipherName finding : String) (ip : Option String) : String :=
  "Blocked cipher suite detected: " ++ cipherName ++ " (finding: \"" ++ finding ++ "\")" ++
    formatIpSuffix ip

/-- Message for a blocked cipher suite that is not offered. -/
def cipherPassMsg (cipherName finding : String) (ip : Option String) : String :=
  "Blocked cipher suite " ++ cipherName ++ " is not offered (finding: \"" ++ finding ++ "\")" ++
    formatIpSuffix ip

/-- `checkBlockedCiphers` from `audit-engine.ts` (violations-only mode);
the for-loop with `break` over blocked patterns is `List.find?`. -/
def checkBlockedCiphers (cfg : RulesConfig) (results : List ScanItem) : List Violation :=
  let blockedCiphers := cfg.rules.blockedCiphers.getD []
  if blockedCiphers.length = 0 then []
  else
    (results.filter cipherItemFilter).flatMap (fun item =>
      let finding := item.finding.getD ""
      if isOffered finding then
        let cipherName := cipherNameOf item.id
        match blockedCiphers.find? (fun blocked => upperContains cipherName blocked) with
        | some blocked =>
          [{ rule := "blocked-cipher",
             message := cipherFailMsg cipherName finding item.ip,
             details := cipherDetails cipherName blocked item.id item.ip }]
        | none => []
      else [])

/-- `getBlockedCipherResults` from `audit-engine.ts` (full mode). -/
def getBlockedCipherResults (cfg : RulesConfig) (results : List ScanItem) : List AuditResult :=
  let blockedCiphers := cfg.rules.blockedCiphers.getD []
  if blockedCiphers.length = 0 then []
  else
    (results.filter cipherItemFilter).flatMap (fun item =>
      let finding := item.finding.getD ""
      let cipherName := cipherNameOf item.id
      match blockedCiphers.find? (fun blocked => upperContains cipherName blocked) with
      | some blockedPattern =>
        if isOffered finding then
          [{ rule := "blocked-cipher", passed := false,
             message := cipherFailMsg cipherName finding item.ip,
             details := cipherDetails cipherName blockedPattern item.id item.ip }]
        else
          [{ rule := "blocked-cipher", passed := true,
             message := cipherPassMsg cipherName finding item.ip,
             details := cipherDetails cipherName blockedPattern item.id item.ip }]
      | none => [])

/-- The predicate locating the PFS record:
`item.id && item.id.toLowerCase().includes('pfs')`. -/
def pfsFinder (item : ScanItem) : Bool :=
  !item.id.data.isEmpty && containsSub ("pfs".data) (jsStrLower item.id).data

/-- The failing-severity test of the forward-secrecy rule:
`fsItem.severity && fsItem.severity !== 'OK' && fsItem.severity !== 'INFO'`. -/
def sevProblem (sev : Option String) : Bool :=
  strTruthy sev && sev != some "OK" && sev != some "INFO"

/-- Details payload `{ finding, severity, ip }` of the forward-secrecy
rule. -/
def fsDetails (finding sev ip : Option String) : List (String × DetailVal) :=
  [("finding", optStrVal finding), ("severity", optStrVal sev), ("ip", optStrVal ip)]

/-- `checkForwardSecrecy` from `audit-engine.ts` (violations-only mode). -/
def checkForwardSecrecy (results : List ScanItem) : List Violation :=
  match results.find? pfsFinder with
  | none => []
  | some fsItem =>
    if sevProblem fsItem.severity then
      [{ rule := "forward-secrecy",
         message := "Forward secrecy is not properly configured" ++ formatIpSuffix fsItem.ip,
         details := fsDetails fsItem.finding fsItem.severity fsItem.ip }]
    else []

/-- `getForwardSecrecyResults` from `audit-engine.ts` (full mode). -/
def getForwardSecrecyResults (results : List ScanItem) : List AuditResult :=
  match results.find? pfsFinder with
  | none => []
  | some fsItem =>
    if sevProblem fsItem.severity then
      [{ rule := "forward-secrecy", passed := false,
         message := "Forward secrecy is not properly configured" ++ formatIpSuffix fsItem.ip,
         details := fsDetails fsItem.finding fsItem.severity fsItem.ip }]
    else
      [{ rule := "forward-secrecy", passed := true,
         message := "Forward secrecy is properly configured" ++ formatIpSuffix fsItem.ip,
         details := fsDetails fsItem.finding fsItem.severity fsItem.ip }]

/-- Details payload `{ notBefore, notAfter, ip }` of an invalid-format
certificate result. -/
def certInvalidDetails (notBefore notAfter : String) (ip : Option String) :
    List (String × DetailVal) :=
  [("notBefore", .str notBefore), ("notAfter", .str notAfter), ("ip", optStrVal ip)]

/-- Details payload `{ notBefore, notAfter, currentTime, ip }`. -/
def certTimeDetails (notBefore notAfter : String) (now : Int) (ip : Option String) :
    List (String × DetailVal) :=
  [("notBefore", .str notBefore), ("notAfter", .str notAfter),
   ("currentTime", .str (epochMsToIso now)), ("ip", optStrVal ip)]

/-- Details payload `{ notBefore, notAfter, daysUntilExpiry, maxDays, ip }`. -/
def certExpiryDetails (notBefore notAfter : String) (daysFloor maxDays : Int)
    (ip : Option String) : List (String × DetailVal) :=
  [("notBefore", .str notBefore), ("notAfter", .str notAfter),
   ("daysUntilExpiry", .int daysFloor), ("maxDays", .int maxDays), ("ip", optStrVal ip)]

/-- Message for an unparseable certificate date pair. -/
def certInvalidMsg (ip : Option String) : String :=
  "Invalid certificate date format" ++ formatIpSuffix ip

/-- Message for a certificate that is not yet valid. -/
def certNotYetValidMsg (notBefore : String) (ip : Option String) : String :=
  "Certificate is not yet valid (notBefore: " ++ notBefore ++ ")" ++ formatIpSuffix ip

/-- Message for an expired certificate. -/
def certExpiredMsg (notAfter : String) (ip : Option String) : String :=
  "Certificate has expired (notAfter: " ++ notAfter ++ ")" ++ formatIpSuffix ip

/-- Message for a certificate expiring within the threshold. -/
def certExpiresSoonMsg (daysFloor maxDays : Int) (notAfter : String) (ip : Option String) :
    String :=
  "Certificate expires in " ++ toString daysFloor ++ " days (threshold: " ++
    toString maxDays ++ " days, notAfter: " ++ notAfter ++ ")" ++ formatIpSuffix ip

/-- Message for a certificate comfortably before its expiry. -/
def certValidMsg (daysFloor maxDays : Int) (ip : Option String) : String :=
  "Certificate is valid and expires in " ++ toString daysFloor ++ " days (threshold: " ++
    toString maxDays ++ " days)" ++ formatIpSuffix ip

/-- The fractional days until expiry,
`(notAfterDate.getTime() - now.getTime()) / MILLISECONDS_PER_DAY`. -/
def daysUntil (notAfterDate now : Int) : Frac := ⟨notAfterDate - now, MILLISECONDS_PER_DAY⟩

/-- `checkCertificateExpiry` from `audit-engine.ts` (violations-only
mode): the not-yet-valid, expired and expiring-soon checks run
independently, with no early return after a date problem. -/
def checkCertificateExpiry (cfg : RulesConfig) (now : Int) (results : List ScanItem) :
    List Violation :=
  match cfg.rules.maxCertificateExpiry with
  | none => []
  | some maxDays =>
    match results.find? (fun item => item.id == "cert_notBefore"),
          results.find? (fun item => item.id == "cert_notAfter") with
    | some notBeforeItem, some notAfterItem =>
      match notBeforeItem.finding, notAfterItem.finding with
      | some notBefore, some notAfter =>
        if notBefore.data.isEmpty || notAfter.data.isEmpty then []
        else
          match parseCertificateDate notBefore false, parseCertificateDate notAfter true with
          | some notBeforeDate, some notAfterDate =>
            (if now < notBeforeDate then
              [{ rule := "certificate-expiry",
                 message := certNotYetValidMsg notBefore notAfterItem.ip,
                 details := certTimeDetails notBefore notAfter now notAfterItem.ip }]
            else []) ++
            (if notAfterDate < now then
              [{ rule := "certificate-expiry",
                 message := certExpiredMsg notAfter notAfterItem.ip,
                 details := certTimeDetails notBefore notAfter now notAfterItem.ip }]
            else []) ++
            (let daysUntilExpiry := daysUntil notAfterDate now
             if fracLt ⟨0, 1⟩ daysUntilExpiry && fracLe daysUntilExpiry ⟨maxDays, 1⟩ then
               [{ rule := "certificate-expiry",
                  message := certExpiresSoonMsg (fracFloor daysUntilExpiry) maxDays notAfter
                    notAfterItem.ip,
                  details := certExpiryDetails notBefore notAfter (fracFloor daysUntilExpiry)
                    maxDays notAfterItem.ip }]
             else [])
          | _, _ =>
            [{ rule := "certificate-expiry",
               message := certInvalidMsg notAfterItem.ip,
               details := certInvalidDetails notBefore notAfter notAfterItem.ip }]
      | _, _ => []
    | _, _ => []

/-- `getCertificateExpiryResults` from `audit-engine.ts` (full mode):
returns at the first applicable failure. -/
def getCertificateExpiryResults (cfg : RulesConfig) (now : Int) (results : List ScanItem) :
    List AuditResult :=
  match cfg.rules.maxCertificateExpiry with
  | none => []
  | some maxDays =>
    match results.find? (fun item => item.id == "cert_notBefore"),
          results.find? (fun item => item.id == "cert_notAfter") with
    | some notBeforeItem, some notAfterItem =>
      match notBeforeItem.finding, notAfterItem.finding with
      | some notBefore, some notAfter =>
        if notBefore.data.isEmpty || notAfter.data.isEmpty then []
        else
          match parseCertificateDate notBefore false, parseCertificateDate notAfter true with
          | some notBeforeDate, some notAfterDate =>
            if now < notBeforeDate then
              [{ rule := "certificate-expiry", passed := false,
                 message := certNotYetValidMsg notBefore notAfterItem.ip,
                 details := certTimeDetails notBefore notAfter now notAfterItem.ip }]
            else if notAfterDate < now then
              [{ rule := "certificate-expiry", passed := false,
                 message := certExpiredMsg notAfter notAfterItem.ip,
                 details := certTimeDetails notBefore notAfter now notAfterItem.ip }]
            else
              let daysUntilExpiry := daysUntil notAfterDate now
              if fracLt ⟨0, 1⟩ daysUntilExpiry && fracLe daysUntilExpiry ⟨maxDays, 1⟩ then
                [{ rule := "certificate-expiry", passed := false,
                   message := certExpiresSoonMsg (fracFloor daysUntilExpiry) maxDays notAfter
                     notAfterItem.ip,
                   details := certExpiryDetails notBefore notAfter (fracFloor daysUntilExpiry)
                     maxDays notAfterItem.ip }]
              else
                [{ rule := "certificate-expiry", passed := true,
                   message := certValidMsg (fracFloor daysUntilExpiry) maxDays notAfterItem.ip,
                   details := certExpiryDetails notBefore notAfter (fracFloor daysUntilExpiry)
                     maxDays notAfterItem.ip }]
          | _, _ =>
            [{ rule := "certificate-expiry", passed := false,
               message := certInvalidMsg notAfterItem.ip,
               details := certInvalidDetails notBefore notAfter notAfterItem.ip }]
      | _, _ => []
    | _, _ => []

/-- Activation test of the blocked-cipher rule:
`blockedCiphers && blockedCiphers.length > 0`. -/
def blockedCiphersActive (cfg : RulesConfig) : Bool :=
  match cfg.rules.blockedCiphers with
  | none => false
  | some l => decide (0 < l.length)

/-- The findings value handed to the engine: either a JSON array of scan
items, or any non-array value (a single object, `null`, a number, ...),
which `Array.isArray` rejects uniformly. -/
inductive FindingsInput where
  | arr (items : List ScanItem)
  | notArray
deriving DecidableEq, Repr

/-- `AuditEngine.audit`: violations of every active rule, in the fixed
rule order; non-array input yields no violations. -/
def audit (cfg : RulesConfig) (now : Int) : FindingsInput → List Violation
  | .notArray => []
  | .arr results =>
    (if strTruthy cfg.rules.minGrade then checkOverallGrade cfg results else []) ++
    (if strTruthy cfg.rules.minTlsVersion then checkTlsVersion cfg results else []) ++
    (if blockedCiphersActive cfg then checkBlockedCiphers cfg results else []) ++
    (if boolTruthy cfg.rules.requireForwardSecrecy then checkForwardSecrecy results else []) ++
    (if cfg.rules.maxCertificateExpiry.isSome then checkCertificateExpiry cfg now results
     else [])

/-- `AuditEngine.getAuditResults`: pass and fail results of every active
rule, in the fixed rule order; non-array input yields no results. -/
def getAuditResults (cfg : RulesConfig) (now : Int) : FindingsInput → List AuditResult
  | .notArray => []
  | .arr results =>
    (if strTruthy cfg.rules.minGrade then getOverallGradeResults cfg results else []) ++
    (if strTruthy cfg.rules.minTlsVersion then getTlsVersionResults cfg results else []) ++
    (if blockedCiphersActive cfg then getBlockedCipherResults cfg results else []) ++
    (if boolTruthy cfg.rules.requireForwardSecrecy then getForwardSecrecyResults results
     else []) ++
    (if cfg.rules.maxCertificateExpiry.isSome then getCertificateExpiryResults cfg now results
     else [])

/-! ### Declarative readings of the string classifiers -/

/-- `containsSub` finds exactly the infix occurrences. -/
theorem containsSub_iff (pat l : List Char) : containsSub pat l = true ↔ pat <:+: l := by
  induction l with
  | nil =>
    simp [containsSub, List.isPrefixOf_iff_prefix, List.infix_nil, List.prefix_nil]
  | cons c t ih =>
    simp [containsSub, List.isPrefixOf_iff_prefix, ih, List.infix_cons_iff]

/-- The last character of `l`, or `prev` when `l` is empty: the
character that precedes a match position during the word scan. -/
def lastOr (prev : Option Char) : List Char → Option Char
  | [] => prev
  | c :: t => (c :: t).getLast?

theorem lastOr_cons (prev : Option Char) (c : Char) (l : List Char) :
    lastOr prev (c :: l) = lastOr (some c) l := by
  cases l with
  | nil => simp [lastOr]
  | cons d t => simp [lastOr, List.getLast?_cons_cons]

theorem lastOr_none (l : List Char) : lastOr none l = l.getLast? := by
  cases l <;> simp [lastOr]

/-- A word-bounded match at the head of `l` is a prefix occurrence with
good boundaries on both sides. -/
theorem wordAt_iff (pat : List Char) (prev : Option Char) (l : List Char) :
    wordAt pat prev l = true ↔
      ∃ r, l = pat ++ r ∧ boundaryOk prev = true ∧ headBoundary r = true := by
  unfold wordAt
  constructor
  · intro h
    simp only [Bool.and_eq_true] at h
    obtain ⟨⟨hp, hb⟩, hh⟩ := h
    obtain ⟨r, hr⟩ := List.isPrefixOf_iff_prefix.mp hp
    refine ⟨r, hr.symm, hb, ?_⟩
    rw [← hr, List.drop_left] at hh
    exact hh
  · rintro ⟨r, rfl, hb, hh⟩
    simp [List.isPrefixOf_iff_prefix, List.prefix_append, hb, List.drop_left, hh]

/-- The word scan finds exactly the word-bounded occurrences, where the
character before a match at the very start of the scan is `prev`. -/
theorem hasWordAux_iff (pat : List Char) (t : List Char) (prev : Option Char) :
    hasWordAux pat prev t = true ↔
      ∃ l r, t = l ++ pat ++ r ∧ boundaryOk (lastOr prev l) = true ∧
        headBoundary r = true := by
  induction t generalizing prev with
  | nil =>
    constructor
    · intro h
      obtain ⟨r, hr, hb, hh⟩ := (wordAt_iff pat prev []).mp h
      exact ⟨[], r, by simpa using hr, by simpa [lastOr] using hb, hh⟩
    · rintro ⟨l, r, hl, hb, hh⟩
      have hl2 : l = [] ∧ pat ++ r = [] := by
        constructor
        · cases l with
          | nil => rfl
          | cons x xs => simp at hl
        · cases l with
          | nil => simpa using hl.symm
          | cons x xs => simp at hl
      apply (wordAt_iff pat prev []).mpr
      refine ⟨r, ?_, ?_, hh⟩
      · simpa using hl2.2.symm
      · rw [hl2.1] at hb; simpa [lastOr] using hb
  | cons c t ih =>
    constructor
    · intro h
      have h2 : wordAt pat prev (c :: t) = true ∨ hasWordAux pat (some c) t = true := by
        have : (wordAt pat prev (c :: t) || hasWordAux pat (some c) t) = true := h
        simpa [Bool.or_eq_true] using this
      rcases h2 with hw | hrec
      · obtain ⟨r, hr, hb, hh⟩ := (wordAt_iff pat prev (c :: t)).mp hw
        exact ⟨[], r, by simpa using hr, by simpa [lastOr] using hb, hh⟩
      · obtain ⟨l, r, hl, hb, hh⟩ := (ih (some c)).mp hrec
        refine ⟨c :: l, r, by simp [hl], ?_, hh⟩
        rwa [lastOr_cons]
    · rintro ⟨l, r, hl, hb, hh⟩
      show (wordAt pat prev (c :: t) || hasWordAux pat (some c) t) = true
      cases l with
      | nil =>
        have hw : wordAt pat prev (c :: t) = true := by
          apply (wordAt_iff pat prev (c :: t)).mpr
          exact ⟨r, by simpa using hl, by simpa [lastOr] using hb, hh⟩
        simp [hw]
      | cons d l2 =>
        have hcd : c = d ∧ t = l2 ++ pat ++ r := by
          have := hl
          simp only [List.cons_append, List.cons.injEq] at this
          exact this
        have hrec : hasWordAux pat (some c) t = true := by
          apply (ih (some c)).mpr
          refine ⟨l2, r, hcd.2, ?_, hh⟩
          rw [hcd.1, ← lastOr_cons prev d l2]
          exact hb
        simp [hrec]

/-- The full word scan: a word-bounded occurrence with the text
boundaries playing the role of non-word characters. -/
theorem hasWord_iff (pat s : List Char) :
    hasWord pat s = true ↔
      ∃ l r, s = l ++ pat ++ r ∧ boundaryOk l.getLast? = true ∧ headBoundary r = true := by
  unfold hasWord
  rw [hasWordAux_iff]
  constructor
  · rintro ⟨l, r, hl, hb, hh⟩
    exact ⟨l, r, hl, by rwa [lastOr_none] at hb, hh⟩
  · rintro ⟨l, r, hl, hb, hh⟩
    exact ⟨l, r, hl, by rwa [lastOr_none], hh⟩

/-- The spec's reading of the negative test: the lowercased text
contains the substring "not offered". -/
def ContainsNotOffered (s : String) : Prop := ("not offered".data) <:+: (jsStrLower s).data

/-- The spec's reading of the positive test: the word "offered" occurs
in the lowercased text with a non-word (or absent) character on each
side. -/
def OfferedWholeWord (s : String) : Prop :=
  ∃ l r, (jsStrLower s).data = l ++ ("offered".data) ++ r ∧
    boundaryOk l.getLast? = true ∧ headBoundary r = true

/-- A string's character list is empty exactly when the string is empty. -/
theorem strDataEmpty_iff (s : String) : s.data.isEmpty = true ↔ s = "" := by
  cases s with
  | mk l =>
    cases l with
    | nil => simp [List.isEmpty]
    | cons c t =>
      simp only [List.isEmpty, Bool.false_eq_true, false_iff]
      intro h
      have h2 : (String.mk (c :: t)).data = ("" : String).data := congrArg String.data h
      simp at h2

/-- C2: `isOffered` is false for empty/missing text and whenever the
text contains "not offered" case-insensitively; otherwise it is true
exactly when "offered" occurs as a whole word (case-insensitively).  In
particular `isOffered "unoffered" = false` while `isOffered "offered"`
and `isOffered "offered (deprecated)"` are true. -/
theorem claim_C2_isOffered :
    (∀ s : String, isOffered s = true ↔
      (¬s = "" ∧ ¬ContainsNotOffered s ∧ OfferedWholeWord s))
    ∧ (∀ s : String, ContainsNotOffered s → isOffered s = false)
    ∧ isOffered "" = false
    ∧ isOffered "unoffered" = false
    ∧ isOffered "offered" = true
    ∧ isOffered "offered (deprecated)" = true := by
  have key : ∀ s : String, isOffered s = true ↔
      (¬s = "" ∧ ¬ContainsNotOffered s ∧ OfferedWholeWord s) := by
    intro s
    unfold isOffered ContainsNotOffered OfferedWholeWord
    by_cases he : s = ""
    · subst he; simp
    · have he2 : s.data.isEmpty = false := by
        rcases h : s.data.isEmpty
        · rfl
        · exact absurd ((strDataEmpty_iff s).mp h) he
      rw [he2]
      simp only [Bool.false_eq_true, if_false]
      by_cases hns : ("not offered".data) <:+: (jsStrLower s).data
      · rw [if_pos ((containsSub_iff _ _).mpr hns)]
        simp [hns]
      · rw [if_neg (fun h => hns ((containsSub_iff _ _).mp h))]
        rw [hasWord_iff]
        simp [he, hns]
  refine ⟨key, ?_, by decide, by decide, by decide, by decide⟩
  intro s hns
  rcases h : isOffered s
  · rfl
  · exact absurd hns ((key s).mp h).2.1

/-- Witness for C2: the dominance conjunct applied at a concrete text
containing "not offered". -/
theorem claim_C2_isOffered_witness :
    ContainsNotOffered "TLS 1.0 Not Offered + downgraded" ∧
      isOffered "TLS 1.0 Not Offered + downgraded" = false := by
  have hc : ContainsNotOffered "TLS 1.0 Not Offered + downgraded" :=
    ⟨"tls 1.0 ".data, " + downgraded".data, by decide⟩
  exact ⟨hc, claim_C2_isOffered.2.1 _ hc⟩

/-! ### Numeric semantics of the fraction representation -/

/-- Cross-multiplied strict comparison agrees with the rational order
when both denominators are positive. -/
theorem fracLt_iff_val (a b : Frac) (ha : 0 < a.den) (hb : 0 < b.den) :
    fracLt a b = true ↔ a.val < b.val := by
  unfold fracLt Frac.val
  rw [decide_eq_true_iff]
  rw [div_lt_div_iff₀ (by exact_mod_cast ha) (by exact_mod_cast hb)]
  constructor
  · intro h; exact_mod_cast h
  · intro h; exact_mod_cast h

/-- Cross-multiplied non-strict comparison agrees with the rational
order when both denominators are positive. -/
theorem fracLe_iff_val (a b : Frac) (ha : 0 < a.den) (hb : 0 < b.den) :
    fracLe a b = true ↔ a.val ≤ b.val := by
  unfold fracLe Frac.val
  rw [decide_eq_true_iff]
  rw [div_le_div_iff₀ (by exact_mod_cast ha) (by exact_mod_cast hb)]
  constructor
  · intro h; exact_mod_cast h
  · intro h; exact_mod_cast h

/-- Any finite number produced by `parseFloatTail` has a positive
denominator. -/
theorem parseFloatTail_den_pos (ip fp : List Char) (ex : Int) (neg : Bool) (m : Frac)
    (h : parseFloatTail ip fp ex neg = JsNum.num m) : 0 < m.den := by
  unfold parseFloatTail at h
  by_cases hex : 0 ≤ ex
  · simp only [hex, if_true] at h
    cases h
    positivity
  · simp only [hex, if_false] at h
    cases h
    positivity

/-- Any finite number produced by `parseFloatMag` has a positive
denominator. -/
theorem parseFloatMag_den_pos (cs : List Char) (neg : Bool) (m : Frac)
    (h : parseFloatMag cs neg = JsNum.num m) : 0 < m.den := by
  unfold parseFloatMag at h
  by_cases h1 : ("Infinity".data).isPrefixOf cs = true
  · rw [if_pos h1] at h
    cases neg <;> simp at h
  · rw [if_neg h1] at h
    by_cases h2 : ((cs.takeWhile Char.isDigit).isEmpty &&
        (fracDigitsPart (cs.drop (cs.takeWhile Char.isDigit).length)).1.isEmpty) = true
    · rw [if_pos h2] at h
      simp at h
    · rw [if_neg h2] at h
      exact parseFloatTail_den_pos _ _ _ _ _ h

/-- Any finite number produced by `jsParseFloat` has a positive
denominator. -/
theorem jsParseFloat_den_pos (s : String) (m : Frac)
    (h : jsParseFloat s = JsNum.num m) : 0 < m.den := by
  unfold jsParseFloat at h
  exact parseFloatMag_den_pos _ _ _ h

/-- No number compares below `NaN`. -/
theorem jsLt_nan (n : JsNum) : jsLt n JsNum.nan = false := by
  cases n <;> rfl

/-- A list all of whose elements satisfy `p` is its own `takeWhile`. -/
theorem takeWhile_of_all {α} {p : α → Bool} {l : List α} (h : l.all p = true) :
    l.takeWhile p = l := by
  induction l with
  | nil => rfl
  | cons a t ih =>
    simp only [List.all_cons, Bool.and_eq_true] at h
    simp [List.takeWhile_cons, h.1, ih h.2]

/-- `parseFloat("1." + digits)` is exactly `1 + digits / 10^len`, as an
unnormalized fraction over `10^len`. -/
theorem jsParseFloat_one_dot (ds : List Char) (h1 : ¬ds = [])
    (h2 : ds.all Char.isDigit = true) :
    jsParseFloat ("1." ++ String.mk ds) =
      JsNum.num ⟨(10 : Int) ^ ds.length + (natOfDigits ds : Int), (10 : Int) ^ ds.length⟩ := by
  have hdata : ("1." ++ String.mk ds).data = '1' :: '.' :: ds := by
    rw [String.data_append]
    rfl
  unfold jsParseFloat
  rw [hdata]
  have hdrop : List.dropWhile jsWhitespace ('1' :: '.' :: ds) = '1' :: '.' :: ds := by
    rw [List.dropWhile_cons]
    simp [jsWhitespace]
  rw [hdrop]
  have hsign : signSplit ('1' :: '.' :: ds) = (false, '1' :: '.' :: ds) := by
    unfold signSplit
    simp
  rw [hsign]
  dsimp only
  unfold parseFloatMag
  have hinf : ("Infinity".data).isPrefixOf ('1' :: '.' :: ds) = false := by
    simp [List.isPrefixOf]
  rw [hinf]
  simp only [Bool.false_eq_true, if_false]
  have htake : List.takeWhile Char.isDigit ('1' :: '.' :: ds) = ['1'] := by
    rw [List.takeWhile_cons]
    simp [List.takeWhile_cons]
  rw [htake]
  have hdrop2 : List.drop (List.length ['1']) ('1' :: '.' :: ds) = '.' :: ds := rfl
  rw [hdrop2]
  have hfrac : fracDigitsPart ('.' :: ds) = (ds, []) := by
    show (if '.' = '.' then
        (ds.takeWhile Char.isDigit, ds.drop (ds.takeWhile Char.isDigit).length)
      else ([], '.' :: ds)) = (ds, [])
    rw [if_pos rfl, takeWhile_of_all h2, List.drop_length]
  rw [hfrac]
  have hne : (List.isEmpty ['1'] && ds.isEmpty) = false := rfl
  simp only [hne, Bool.false_eq_true, if_false]
  have hexp : parseExpPart [] = 0 := rfl
  simp only [hexp]
  unfold parseFloatTail
  norm_num
  rfl

/-! ### The TLS-version rule, record by record -/

/-- The numeric version of a matched protocol-id group: `TLS1` is 1.0
and `TLS1_<n>` is `1.<n>`, written as a fraction over `10^len`. -/
def groupVersionFrac : Option (List Char) → Frac
  | none => ⟨1, 1⟩
  | some ds => ⟨(10 : Int) ^ ds.length + (natOfDigits ds : Int), (10 : Int) ^ ds.length⟩

/-- `tlsVersionOf` of spec §4.1: the version denoted by a protocol
identifier, `none` outside the `TLS1(_n)?` vocabulary. -/
def tlsVersionOf (id : String) : Option Frac := (tlsIdGroup id).map groupVersionFrac

/-- A matched digit group is nonempty and all digits. -/
theorem tlsIdGroup_digits (id : String) (ds : List Char)
    (h : tlsIdGroup id = some (some ds)) : ¬ds = [] ∧ ds.all Char.isDigit = true := by
  unfold tlsIdGroup at h
  split_ifs at h with ha hb
  · simp at h
  · dsimp only at h
    split_ifs at h with hc
    · simp only [Option.some.injEq] at h
      rw [← h]
      simp only [Bool.and_eq_true, Bool.not_eq_true'] at hc
      refine ⟨?_, hc.2⟩
      intro hnil
      rw [hnil] at hc
      simp at hc

/-- A matching protocol id is a nonempty string. -/
theorem tlsIdGroup_nonempty (id : String) (g : Option (List Char))
    (h : tlsIdGroup id = some g) : id.data.isEmpty = false := by
  unfold tlsIdGroup at h
  split_ifs at h with ha hb
  · rw [ha]; rfl
  · rcases hd : id.data with _ | ⟨c, t⟩
    · rw [hd] at hb; simp [List.isPrefixOf] at hb
    · rfl

/-- The version number the engine computes for a matched group is the
spec's version, as a finite number. -/
theorem tlsGroupVersion_num (id : String) (g : Option (List Char))
    (h : tlsIdGroup id = some g) : tlsGroupVersion g = JsNum.num (groupVersionFrac g) := by
  cases g with
  | none => rfl
  | some ds =>
    obtain ⟨h1, h2⟩ := tlsIdGroup_digits id ds h
    exact jsParseFloat_one_dot ds h1 h2

/-- Spec versions have positive denominators. -/
theorem groupVersionFrac_den_pos (g : Option (List Char)) :
    0 < (groupVersionFrac g).den := by
  cases g with
  | none => decide
  | some ds =>
    show (0 : Int) < 10 ^ ds.length
    positivity

/-- Filtering before `flatMap` is `flatMap` with a guarded body. -/
theorem filter_flatMap_if {α β : Type} (l : List α) (p : α → Bool) (f : α → List β) :
    (l.filter p).flatMap f = l.flatMap (fun a => if p a then f a else []) := by
  induction l with
  | nil => rfl
  | cons a t ih =>
    by_cases h : p a = true <;> simp [List.filter_cons, h, ih]

/-- Pointwise-equal bodies give equal `flatMap`s. -/
theorem flatMap_congr_mem {α β : Type} {l : List α} {f g : α → List β}
    (h : ∀ a ∈ l, f a = g a) : l.flatMap f = l.flatMap g := by
  induction l with
  | nil => rfl
  | cons a t ih =>
    simp only [List.flatMap_cons]
    rw [h a (by simp), ih (fun x hx => h x (by simp [hx]))]

/-- The spec's full-mode table for one record of the TLS-version rule:
version by `tlsVersionOf`, offeredness by `isOffered`, comparison of
the version against the parsed minimum `m`. -/
def tlsRecordFull (minVersion : String) (m : Frac) (item : ScanItem) : List AuditResult :=
  match tlsVersionOf item.id, item.finding with
  | some v, some f =>
    if f.data.isEmpty then []
    else if isOffered f then
      if fracLt v m then
        [{ rule := "min-tls-version", passed := false,
           message := tlsFailMsg item.id f minVersion item.ip,
           details := tlsDetails item.id f (JsNum.num v) item.ip }]
      else
        [{ rule := "min-tls-version", passed := true,
           message := tlsPassOfferedMsg item.id minVersion item.ip,
           details := tlsDetails item.id f (JsNum.num v) item.ip }]
    else
      if fracLt v m then
        [{ rule := "min-tls-version", passed := true,
           message := tlsPassNotOfferedMsg item.id f item.ip,
           details := tlsDetails item.id f (JsNum.num v) item.ip }]
      else []
  | _, _ => []

/-- The spec's violations-only table for one record of the TLS-version
rule: a failing record exactly when offered and below the minimum. -/
def tlsRecordViol (minVersion : String) (m : Frac) (item : ScanItem) : List Violation :=
  match tlsVersionOf item.id, item.finding with
  | some v, some f =>
    if f.data.isEmpty then []
    else if isOffered f && fracLt v m then
      [{ rule := "min-tls-version",
         message := tlsFailMsg item.id f minVersion item.ip,
         details := tlsDetails item.id f (JsNum.num v) item.ip }]
    else []
  | _, _ => []

/-- C1: under a policy whose `minTlsVersion` parses to a number `m`,
both TLS-version evaluators process the findings record by record
(never collapsing records that share an id): a record contributes iff
its id is in the `TLS1(_n)?` vocabulary and its finding text is
non-empty, and then follows the spec's offered/version table against
`m`; the Boolean comparison used is the rational order on versions. -/
theorem claim_C1_tls_version_rule (cfg : RulesConfig) (results : List ScanItem)
    (s : String) (m : Frac)
    (hcfg : cfg.rules.minTlsVersion = some s)
    (hm : jsParseFloat s = JsNum.num m) :
    getTlsVersionResults cfg results = results.flatMap (tlsRecordFull s m)
    ∧ checkTlsVersion cfg results = results.flatMap (tlsRecordViol s m)
    ∧ (∀ id v, tlsVersionOf id = some v → (fracLt v m = true ↔ v.val < m.val)) := by
  have hs : ¬s = "" := by
    intro h
    rw [h] at hm
    have h0 : jsParseFloat "" = JsNum.nan := rfl
    rw [h0] at hm
    cases hm
  have hsE : s.data.isEmpty = false := by
    rcases h : s.data.isEmpty
    · rfl
    · exact absurd ((strDataEmpty_iff s).mp h) hs
  have hmden : 0 < m.den := jsParseFloat_den_pos s m hm
  refine ⟨?_, ?_, ?_⟩
  · unfold getTlsVersionResults
    rw [hcfg]
    dsimp only
    rw [hsE]
    simp only [Bool.false_eq_true, if_false]
    rw [hm, filter_flatMap_if]
    apply flatMap_congr_mem
    intro item _
    rcases hg : tlsIdGroup item.id with _ | g
    · have hfilter : tlsProtocolFilter item = false := by
        unfold tlsProtocolFilter
        rw [hg]
        simp
      rw [hfilter]
      simp [tlsRecordFull, tlsVersionOf, hg]
    · have hgv := tlsGroupVersion_num item.id g hg
      have hidne := tlsIdGroup_nonempty item.id g hg
      rcases hf : item.finding with _ | f
      · have hfilter : tlsProtocolFilter item = false := by
          unfold tlsProtocolFilter strTruthy
          rw [hf]
          simp
        rw [hfilter]
        simp [tlsRecordFull, tlsVersionOf, hg, hf]
      · rcases hfe : f.data.isEmpty
        · have hfilter : tlsProtocolFilter item = true := by
            unfold tlsProtocolFilter strTruthy
            rw [hg, hf]
            simp [hidne, hfe]
          rw [hfilter]
          simp only [if_true]
          unfold tlsRecordFull
          simp only [tlsVersionOf, hg, hf, Option.map_some, hfe, Bool.false_eq_true, if_false,
            Option.getD_some, hgv]
          have hjs : jsLt (JsNum.num (groupVersionFrac g)) (JsNum.num m) =
              fracLt (groupVersionFrac g) m := rfl
          have hfne : ¬f.data = [] := by
            intro hh
            rw [hh] at hfe
            simp at hfe
          rw [hjs]
          rcases hO : isOffered f <;> rcases hL : fracLt (groupVersionFrac g) m <;>
            simp [hO, hL, hfne]
        · have hfilter : tlsProtocolFilter item = false := by
            unfold tlsProtocolFilter strTruthy
            rw [hf]
            simp [hfe]
          rw [hfilter]
          simp [tlsRecordFull, tlsVersionOf, hg, hf, hfe]
  · unfold checkTlsVersion
    rw [hcfg]
    dsimp only
    rw [hsE]
    simp only [Bool.false_eq_true, if_false]
    rw [hm, filter_flatMap_if]
    apply flatMap_congr_mem
    intro item _
    rcases hg : tlsIdGroup item.id with _ | g
    · have hfilter : tlsProtocolFilter item = false := by
        unfold tlsProtocolFilter
        rw [hg]
        simp
      rw [hfilter]
      simp [tlsRecordViol, tlsVersionOf, hg]
    · have hgv := tlsGroupVersion_num item.id g hg
      have hidne := tlsIdGroup_nonempty item.id g hg
      rcases hf : item.finding with _ | f
      · have hfilter : tlsProtocolFilter item = false := by
          unfold tlsProtocolFilter strTruthy
          rw [hf]
          simp
        rw [hfilter]
        simp [tlsRecordViol, tlsVersionOf, hg, hf]
      · rcases hfe : f.data.isEmpty
        · have hfilter : tlsProtocolFilter item = true := by
            unfold tlsProtocolFilter strTruthy
            rw [hg, hf]
            simp [hidne, hfe]
          rw [hfilter]
          simp only [if_true]
          unfold tlsRecordViol
          simp only [tlsVersionOf, hg, hf, Option.map_some, hfe, Bool.false_eq_true, if_false,
            Option.getD_some, hgv]
          have hjs : jsLt (JsNum.num (groupVersionFrac g)) (JsNum.num m) =
              fracLt (groupVersionFrac g) m := rfl
          have hfne : ¬f.data = [] := by
            intro hh
            rw [hh] at hfe
            simp at hfe
          rw [hjs]
          rcases hO : isOffered f <;> rcases hL : fracLt (groupVersionFrac g) m <;>
            simp [hO, hL, hfne]
        · have hfilter : tlsProtocolFilter item = false := by
            unfold tlsProtocolFilter strTruthy
            rw [hf]
            simp [hfe]
          rw [hfilter]
          simp [tlsRecordViol, tlsVersionOf, hg, hf, hfe]
  · intro id v hv
    unfold tlsVersionOf at hv
    rcases hg : tlsIdGroup id with _ | g
    · rw [hg] at hv; cases hv
    · rw [hg] at hv
      simp only [Option.map_some', Option.some.injEq] at hv
      rw [← hv]
      exact fracLt_iff_val _ m (groupVersionFrac_den_pos g) hmden

/-- Witness for C1: a concrete policy, and two records sharing the id
`TLS1` that each yield their own failing result. -/
theorem claim_C1_tls_version_rule_witness :
    jsParseFloat "1.2" = JsNum.num ⟨12, 10⟩
    ∧ getTlsVersionResults ⟨{ minTlsVersion := some "1.2" }⟩
        [⟨"TLS1", some "h/1", none, some "offered"⟩,
         ⟨"TLS1", some "h/2", none, some "offered"⟩] =
      [(⟨"TLS1", some "h/1", none, some "offered"⟩ : ScanItem),
       ⟨"TLS1", some "h/2", none, some "offered"⟩].flatMap (tlsRecordFull "1.2" ⟨12, 10⟩)
    ∧ ([(⟨"TLS1", some "h/1", none, some "offered"⟩ : ScanItem),
        ⟨"TLS1", some "h/2", none, some "offered"⟩].flatMap
          (tlsRecordFull "1.2" ⟨12, 10⟩)).length = 2 := by
  refine ⟨by decide, ?_, by decide⟩
  exact (claim_C1_tls_version_rule _ _ "1.2" ⟨12, 10⟩ rfl (by decide)).1

/-- The spec's full-mode table for one record of the TLS-version rule
when the configured minimum does not parse: every matching offered
record is reported as meeting the minimum, and nothing else. -/
def tlsRecordNanFull (minVersion : String) (item : ScanItem) : List AuditResult :=
  match tlsVersionOf item.id, item.finding with
  | some v, some f =>
    if f.data.isEmpty then []
    else if isOffered f then
      [{ rule := "min-tls-version", passed := true,
         message := tlsPassOfferedMsg item.id minVersion item.ip,
         details := tlsDetails item.id f (JsNum.num v) item.ip }]
    else []
  | _, _ => []

/-- A body that is pointwise empty yields an empty `flatMap`. -/
theorem flatMap_nil_of_forall {α β : Type} {l : List α} {f : α → List β}
    (h : ∀ a ∈ l, f a = []) : l.flatMap f = [] := by
  induction l with
  | nil => rfl
  | cons a t ih =>
    simp only [List.flatMap_cons]
    rw [h a (by simp), ih (fun x hx => h x (by simp [hx]))]
    rfl

/-- C10: when `minTlsVersion` is set but does not parse as a number
(`parseFloat` gives `NaN`), the TLS-version rule is active yet can never
fail: violations-only mode emits nothing, and full mode reports every
matching offered protocol as a passing "meets the minimum" result.  The
misconfiguration is never surfaced, unlike an invalid `minGrade`, which
yields a failing result. -/
theorem claim_C10_nan_min_version (cfg : RulesConfig) (results : List ScanItem) (s : String)
    (hcfg : cfg.rules.minTlsVersion = some s) (hsne : ¬s = "")
    (hm : jsParseFloat s = JsNum.nan) :
    checkTlsVersion cfg results = []
    ∧ getTlsVersionResults cfg results = results.flatMap (tlsRecordNanFull s)
    ∧ (∀ r ∈ getTlsVersionResults cfg results, r.passed = true)
    ∧ (getOverallGradeResults ⟨{ minGrade := some "Z" }⟩
         [⟨"overall_grade", none, none, some "B"⟩]).map (fun r => r.passed) = [false] := by
  have hsE : s.data.isEmpty = false := by
    rcases h : s.data.isEmpty
    · rfl
    · exact absurd ((strDataEmpty_iff s).mp h) hsne
  have heqF : getTlsVersionResults cfg results = results.flatMap (tlsRecordNanFull s) := by
    unfold getTlsVersionResults
    rw [hcfg]
    dsimp only
    rw [hsE]
    simp only [Bool.false_eq_true, if_false]
    rw [hm, filter_flatMap_if]
    apply flatMap_congr_mem
    intro item _
    rcases hg : tlsIdGroup item.id with _ | g
    · have hfilter : tlsProtocolFilter item = false := by
        unfold tlsProtocolFilter
        rw [hg]
        simp
      rw [hfilter]
      simp [tlsRecordNanFull, tlsVersionOf, hg]
    · have hgv := tlsGroupVersion_num item.id g hg
      have hidne := tlsIdGroup_nonempty item.id g hg
      rcases hf : item.finding with _ | f
      · have hfilter : tlsProtocolFilter item = false := by
          unfold tlsProtocolFilter strTruthy
          rw [hf]
          simp
        rw [hfilter]
        simp [tlsRecordNanFull, tlsVersionOf, hg, hf]
      · rcases hfe : f.data.isEmpty
        · have hfilter : tlsProtocolFilter item = true := by
            unfold tlsProtocolFilter strTruthy
            rw [hg, hf]
            simp [hidne, hfe]
          rw [hfilter]
          simp only [if_true]
          unfold tlsRecordNanFull
          simp only [tlsVersionOf, hg, hf, Option.map_some', hfe, Bool.false_eq_true, if_false,
            Option.getD_some, hgv, jsLt_nan]
        · have hfilter : tlsProtocolFilter item = false := by
            unfold tlsProtocolFilter strTruthy
            rw [hf]
            simp [hfe]
          rw [hfilter]
          simp [tlsRecordNanFull, tlsVersionOf, hg, hf, hfe]
  refine ⟨?_, heqF, ?_, by decide⟩
  · unfold checkTlsVersion
    rw [hcfg]
    dsimp only
    rw [hsE]
    simp only [Bool.false_eq_true, if_false]
    rw [hm, filter_flatMap_if]
    apply flatMap_nil_of_forall
    intro item _
    rcases hg : tlsIdGroup item.id with _ | g
    · have hfilter : tlsProtocolFilter item = false := by
        unfold tlsProtocolFilter
        rw [hg]
        simp
      rw [hfilter]
      simp
    · have hgv := tlsGroupVersion_num item.id g hg
      simp [hgv, jsLt_nan]
  · intro r hr
    rw [heqF] at hr
    obtain ⟨a, -, hra⟩ := List.mem_flatMap.mp hr
    unfold tlsRecordNanFull at hra
    split at hra
    · split_ifs at hra with h1 h2
      · simp at hra
      · simp only [List.mem_singleton] at hra
        rw [hra]
      · simp at hra
    · simp at hra

/-- Witness for C10: the policy `minTlsVersion = "abc"` with one offered
`TLS1` record yields no violation and a single passing result. -/
theorem claim_C10_nan_min_version_witness :
    jsParseFloat "abc" = JsNum.nan
    ∧ checkTlsVersion ⟨{ minTlsVersion := some "abc" }⟩
        [⟨"TLS1", none, none, some "offered"⟩] = []
    ∧ getTlsVersionResults ⟨{ minTlsVersion := some "abc" }⟩
        [⟨"TLS1", none, none, some "offered"⟩] =
      [(⟨"TLS1", none, none, some "offered"⟩ : ScanItem)].flatMap (tlsRecordNanFull "abc") := by
  have h := claim_C10_nan_min_version ⟨{ minTlsVersion := some "abc" }⟩
    [⟨"TLS1", none, none, some "offered"⟩] "abc" rfl (by decide) (by decide)
  exact ⟨by decide, h.1, h.2.1⟩

/-! ### The blocked-cipher rule, record by record -/

/-- Removing a nonempty pattern sitting at the head of a list leaves the
rest. -/
theorem removeFirstOcc_append (pat rest : List Char) (hne : ¬pat = []) :
    removeFirstOcc pat (pat ++ rest) = rest := by
  rcases hp : pat with _ | ⟨p, ps⟩
  · exact absurd hp hne
  · rw [List.cons_append]
    unfold removeFirstOcc
    have hpre : (p :: ps).isPrefixOf (p :: (ps ++ rest)) = true := by
      rw [List.isPrefixOf_iff_prefix, ← List.cons_append]
      exact List.prefix_append _ _
    rw [hpre]
    simp only [if_true]
    rw [← List.cons_append, List.drop_left]

/-- Under the `cipherlist_` prefix guard, `replace('cipherlist_', '')`
is exactly prefix stripping. -/
theorem cipherNameOf_strip (id : String)
    (h : ("cipherlist_".data).isPrefixOf id.data = true) :
    cipherNameOf id = String.mk (id.data.drop 11) := by
  obtain ⟨rest, hrest⟩ := List.isPrefixOf_iff_prefix.mp h
  unfold cipherNameOf
  rw [← hrest, removeFirstOcc_append _ _ (by decide)]
  congr 1

/-- The spec's full-mode table for one record of the blocked-cipher
rule: the prefix guard selects cipher records, the name is the id with
the prefix stripped, blockedness is the first case-insensitive match
among the configured patterns. -/
def cipherRecordFull (bl : List String) (item : ScanItem) : List AuditResult :=
  match item.finding with
  | some f =>
    if f.data.isEmpty then []
    else if ("cipherlist_".data).isPrefixOf item.id.data then
      match bl.find? (fun b => upperContains (String.mk (item.id.data.drop 11)) b) with
      | some b =>
        if isOffered f then
          [{ rule := "blocked-cipher", passed := false,
             message := cipherFailMsg (String.mk (item.id.data.drop 11)) f item.ip,
             details := cipherDetails (String.mk (item.id.data.drop 11)) b item.id item.ip }]
        else
          [{ rule := "blocked-cipher", passed := true,
             message := cipherPassMsg (String.mk (item.id.data.drop 11)) f item.ip,
             details := cipherDetails (String.mk (item.id.data.drop 11)) b item.id item.ip }]
      | none => []
    else []
  | none => []

/-- The spec's violations-only table for one record of the
blocked-cipher rule: a failing record exactly when blocked and offered. -/
def cipherRecordViol (bl : List String) (item : ScanItem) : List Violation :=
  match item.finding with
  | some f =>
    if f.data.isEmpty then []
    else if ("cipherlist_".data).isPrefixOf item.id.data then
      match bl.find? (fun b => upperContains (String.mk (item.id.data.drop 11)) b) with
      | some b =>
        if isOffered f then
          [{ rule := "blocked-cipher",
             message := cipherFailMsg (String.mk (item.id.data.drop 11)) f item.ip,
             details := cipherDetails (String.mk (item.id.data.drop 11)) b item.id item.ip }]
        else []
      | none => []
    else []
  | none => []

/-- A nonempty pattern is no prefix of the empty list. -/
theorem cipher_id_nonempty (id : String)
    (h : ("cipherlist_".data).isPrefixOf id.data = true) : id.data.isEmpty = false := by
  rcases hd : id.data with _ | ⟨c, t⟩
  · rw [hd] at h
    simp [List.isPrefixOf] at h
  · rfl

/-- C3: under a policy with a non-empty blocked-cipher list, both
blocked-cipher evaluators process the findings record by record,
following the spec's table: prefix-guarded records with non-empty
finding, name = id minus prefix, first matching pattern wins (at most
one result per record), fail iff offered and pass (full mode) iff
blocked but not offered.  Scenario C holds concretely. -/
theorem claim_C3_blocked_cipher_rule (cfg : RulesConfig) (results : List ScanItem)
    (bl : List String)
    (hcfg : cfg.rules.blockedCiphers = some bl) (hne : ¬bl = []) :
    getBlockedCipherResults cfg results = results.flatMap (cipherRecordFull bl)
    ∧ checkBlockedCiphers cfg results = results.flatMap (cipherRecordViol bl)
    ∧ audit ⟨{ blockedCiphers := some ["RC4"] }⟩ 0
        (.arr [⟨"cipherlist_RC4", none, none, some "not offered"⟩]) = []
    ∧ getAuditResults ⟨{ blockedCiphers := some ["RC4"] }⟩ 0
        (.arr [⟨"cipherlist_RC4", none, none, some "not offered"⟩]) =
      [{ rule := "blocked-cipher", passed := true,
         message := cipherPassMsg "RC4" "not offered" none,
         details := cipherDetails "RC4" "RC4" "cipherlist_RC4" none }] := by
  have hlen : ¬bl.length = 0 := fun h => hne (List.length_eq_zero.mp h)
  refine ⟨?_, ?_, by decide, by decide⟩
  · unfold getBlockedCipherResults
    rw [hcfg]
    simp only [Option.getD_some]
    rw [if_neg hlen, filter_flatMap_if]
    apply flatMap_congr_mem
    intro item _
    rcases hf : item.finding with _ | f
    · have hfilter : cipherItemFilter item = false := by
        unfold cipherItemFilter strTruthy
        rw [hf]
        simp
      rw [hfilter]
      simp [cipherRecordFull, hf]
    · rcases hfe : f.data.isEmpty
      · rcases hp : ("cipherlist_".data).isPrefixOf item.id.data
        · have hfilter : cipherItemFilter item = false := by
            unfold cipherItemFilter strTruthy
            rw [hp]
            simp
          rw [hfilter]
          simp [cipherRecordFull, hf, hfe, hp]
        · have hidne := cipher_id_nonempty item.id hp
          have hfilter : cipherItemFilter item = true := by
            unfold cipherItemFilter strTruthy
            rw [hp, hf]
            simp [hidne, hfe]
          rw [hfilter]
          simp only [if_true]
          unfold cipherRecordFull
          rw [cipherNameOf_strip item.id hp]
          simp only [hf, hfe, hp, Bool.false_eq_true, if_false, if_true, Option.getD_some]
      · have hfilter : cipherItemFilter item = false := by
          unfold cipherItemFilter strTruthy
          rw [hf]
          simp [hfe]
        rw [hfilter]
        simp [cipherRecordFull, hf, hfe]
  · unfold checkBlockedCiphers
    rw [hcfg]
    simp only [Option.getD_some]
    rw [if_neg hlen, filter_flatMap_if]
    apply flatMap_congr_mem
    intro item _
    rcases hf : item.finding with _ | f
    · have hfilter : cipherItemFilter item = false := by
        unfold cipherItemFilter strTruthy
        rw [hf]
        simp
      rw [hfilter]
      simp [cipherRecordViol, hf]
    · rcases hfe : f.data.isEmpty
      · rcases hp : ("cipherlist_".data).isPrefixOf item.id.data
        · have hfilter : cipherItemFilter item = false := by
            unfold cipherItemFilter strTruthy
            rw [hp]
            simp
          rw [hfilter]
          simp [cipherRecordViol, hf, hfe, hp]
        · have hidne := cipher_id_nonempty item.id hp
          have hfilter : cipherItemFilter item = true := by
            unfold cipherItemFilter strTruthy
            rw [hp, hf]
            simp [hidne, hfe]
          rw [hfilter]
          simp only [if_true]
          unfold cipherRecordViol
          rw [cipherNameOf_strip item.id hp]
          simp only [hf, hfe, hp, Bool.false_eq_true, if_false, if_true, Option.getD_some]
          rcases hfind : bl.find? (fun b => upperContains (String.mk (item.id.data.drop 11)) b)
            with _ | b
          · simp [hfind]
          · rcases hO : isOffered f <;> simp [hfind, hO]
      · have hfilter : cipherItemFilter item = false := by
          unfold cipherItemFilter strTruthy
          rw [hf]
          simp [hfe]
        rw [hfilter]
        simp [cipherRecordViol, hf, hfe]

/-- Witness for C3: the Scenario C policy and findings, through the
per-record characterization. -/
theorem claim_C3_blocked_cipher_rule_witness :
    getBlockedCipherResults ⟨{ blockedCiphers := some ["RC4"] }⟩
        [⟨"cipherlist_RC4", none, none, some "not offered"⟩] =
      [(⟨"cipherlist_RC4", none, none, some "not offered"⟩ : ScanItem)].flatMap
        (cipherRecordFull ["RC4"])
    ∧ checkBlockedCiphers ⟨{ blockedCiphers := some ["RC4"] }⟩
        [⟨"cipherlist_RC4", none, none, some "not offered"⟩] = [] := by
  have h := claim_C3_blocked_cipher_rule ⟨{ blockedCiphers := some ["RC4"] }⟩
    [⟨"cipherlist_RC4", none, none, some "not offered"⟩] ["RC4"] rfl (by decide)
  refine ⟨h.1, ?_⟩
  rw [h.2.1]
  decide

/-! ### The forward-secrecy rule -/

/-- `find?` over a split list returns the first satisfying element. -/
theorem find?_append_first {α : Type} {p : α → Bool} {pre post : List α} {it : α}
    (hpre : ∀ x ∈ pre, p x = false) (hit : p it = true) :
    (pre ++ it :: post).find? p = some it := by
  induction pre with
  | nil => simp [List.find?_cons, hit]
  | cons a t ih =>
    rw [List.cons_append, List.find?_cons]
    rw [hpre a (by simp)]
    simp only [Bool.false_eq_true, if_false]
    exact ih (fun x hx => hpre x (by simp [hx]))

/-- C7: the forward-secrecy evaluators inspect only the first record
whose id contains "pfs" case-insensitively — records after it never
change the outcome.  With no such record nothing is emitted; otherwise
exactly one result: failing iff the severity field is truthy and
neither `OK` nor `INFO`, else passing (in full mode only). -/
theorem claim_C7_forward_secrecy (pre post post' : List ScanItem) (it : ScanItem) :
    ((∀ x ∈ pre, pfsFinder x = false) → pfsFinder it = true →
      (getForwardSecrecyResults (pre ++ it :: post) =
          getForwardSecrecyResults (pre ++ it :: post')
        ∧ checkForwardSecrecy (pre ++ it :: post) = checkForwardSecrecy (pre ++ it :: post')
        ∧ getForwardSecrecyResults (pre ++ it :: post) =
            (if sevProblem it.severity then
              [{ rule := "forward-secrecy", passed := false,
                 message := "Forward secrecy is not properly configured" ++
                   formatIpSuffix it.ip,
                 details := fsDetails it.finding it.severity it.ip }]
            else
              [{ rule := "forward-secrecy", passed := true,
                 message := "Forward secrecy is properly configured" ++ formatIpSuffix it.ip,
                 details := fsDetails it.finding it.severity it.ip }])
        ∧ checkForwardSecrecy (pre ++ it :: post) =
            (if sevProblem it.severity then
              [{ rule := "forward-secrecy",
                 message := "Forward secrecy is not properly configured" ++
                   formatIpSuffix it.ip,
                 details := fsDetails it.finding it.severity it.ip }]
            else [])
        ∧ (getForwardSecrecyResults (pre ++ it :: post)).length = 1
        ∧ sevProblem it.severity =
            (strTruthy it.severity && it.severity != some "OK" && it.severity != some "INFO")))
    ∧ ((∀ x ∈ pre, pfsFinder x = false) →
        checkForwardSecrecy pre = [] ∧ getForwardSecrecyResults pre = []) := by
  constructor
  · intro hpre hit
    have hfind : (pre ++ it :: post).find? pfsFinder = some it := find?_append_first hpre hit
    have hfind2 : (pre ++ it :: post').find? pfsFinder = some it := find?_append_first hpre hit
    unfold getForwardSecrecyResults checkForwardSecrecy
    rw [hfind, hfind2]
    refine ⟨rfl, rfl, ?_, ?_, ?_, rfl⟩ <;>
      rcases h : sevProblem it.severity <;> simp [h]
  · intro hpre
    have hfind : pre.find? pfsFinder = none :=
      List.find?_eq_none.mpr (fun x hx => by simp [hpre x hx])
    unfold checkForwardSecrecy getForwardSecrecyResults
    rw [hfind]
    exact ⟨rfl, rfl⟩

/-- Witness for C7: a first `PFS` record with severity `LOW` decides the
outcome; a later `PFS` record with severity `OK` is ignored. -/
theorem claim_C7_forward_secrecy_witness :
    getForwardSecrecyResults ([] ++ (⟨"PFS", none, some "LOW", none⟩ : ScanItem) ::
        [⟨"PFS", none, some "OK", none⟩]) =
      getForwardSecrecyResults ([] ++ (⟨"PFS", none, some "LOW", none⟩ : ScanItem) :: [])
    ∧ (getForwardSecrecyResults ([] ++ (⟨"PFS", none, some "LOW", none⟩ : ScanItem) ::
        [⟨"PFS", none, some "OK", none⟩])).length = 1 := by
  have h := (claim_C7_forward_secrecy [] [⟨"PFS", none, some "OK", none⟩] []
    ⟨"PFS", none, some "LOW", none⟩).1 (by intro x hx; simp at hx) (by decide)
  exact ⟨h.1, h.2.2.2.2.1⟩

/-! ### The grade rule -/

/-- The full-mode outcome of the grade rule as a function of the located
`overall_grade` record: nothing without a record or grade text; one
failing result when the configured minimum's JS lookup is `undefined`;
one failing result (with a different message) when the actual grade's
lookup is `undefined`; otherwise fail iff the looked-up values compare
`actual < min` under JS semantics, else pass.  A grade outside the
vocabulary whose name is an `Object.prototype` member does NOT take a
misconfiguration branch: its lookup is the inherited member, which is
not `undefined`. -/
def gradeResultSpec (g : String) (found : Option ScanItem) : List AuditResult :=
  match found with
  | none => []
  | some item =>
    match item.finding with
    | none => []
    | some a =>
      if a.data.isEmpty then []
      else
        if gradeLookup g = GradeLookup.undef then
          [{ rule := "overall-grade", passed := false,
             message := gradeInvalidMinMsg g, details := gradeDetails g a }]
        else if gradeLookup a = GradeLookup.undef then
          [{ rule := "overall-grade", passed := false,
             message := gradeUnknownMsg a, details := gradeDetails g a }]
        else if jsRankLt (gradeLookup a) (gradeLookup g) then
          [{ rule := "overall-grade", passed := false,
             message := gradeFailMsg g a,
             details := gradeRankDetails g a (gradeLookup g) (gradeLookup a) }]
        else
          [{ rule := "overall-grade", passed := true,
             message := gradePassMsg g a,
             details := gradeRankDetails g a (gradeLookup g) (gradeLookup a) }]

/-- The violations-only outcome of the grade rule: as `gradeResultSpec`,
without the passing record. -/
def gradeViolSpec (g : String) (found : Option ScanItem) : List Violation :=
  match found with
  | none => []
  | some item =>
    match item.finding with
    | none => []
    | some a =>
      if a.data.isEmpty then []
      else
        if gradeLookup g = GradeLookup.undef then
          [{ rule := "overall-grade",
             message := gradeInvalidMinMsg g, details := gradeDetails g a }]
        else if gradeLookup a = GradeLookup.undef then
          [{ rule := "overall-grade",
             message := gradeUnknownMsg a, details := gradeDetails g a }]
        else if jsRankLt (gradeLookup a) (gradeLookup g) then
          [{ rule := "overall-grade",
             message := gradeFailMsg g a,
             details := gradeRankDetails g a (gradeLookup g) (gradeLookup a) }]
        else []

/-- The grade-rule outcome is at most one record. -/
theorem gradeResultSpec_len (g : String) (found : Option ScanItem) :
    (gradeResultSpec g found).length ≤ 1 := by
  unfold gradeResultSpec
  rcases found with _ | item
  · simp
  · dsimp only
    rcases hf : item.finding with _ | a
    · simp
    · dsimp only
      by_cases hfe : a.data.isEmpty = true
      · simp [hfe]
      · simp only [hfe, Bool.false_eq_true, if_false]
        split_ifs <;> simp

/-- The violations-only grade outcome is at most one record. -/
theorem gradeViolSpec_len (g : String) (found : Option ScanItem) :
    (gradeViolSpec g found).length ≤ 1 := by
  unfold gradeViolSpec
  rcases found with _ | item
  · simp
  · dsimp only
    rcases hf : item.finding with _ | a
    · simp
    · dsimp only
      by_cases hfe : a.data.isEmpty = true
      · simp [hfe]
      · simp only [hfe, Bool.false_eq_true, if_false]
        split_ifs <;> simp

/-- C4 counterexample: `minGrade = "toString"` is outside the grade
vocabulary, yet the program emits no failing invalid-configuration
result.  `GRADE_RANKING['toString']` is the inherited
`Object.prototype.toString` function, not `undefined`, so the
`=== undefined` guard does not fire; the rank comparison `6 < NaN` is
false; full mode therefore emits one PASSING result ("Grade B meets the
minimum requirement of toString") and violations mode emits nothing. -/
theorem claim_C4_overall_grade_counterexample :
    gradeRank "toString" = none
    ∧ (getOverallGradeResults ⟨{ minGrade := some "toString" }⟩
        [⟨"overall_grade", none, none, some "B"⟩]).map
          (fun r => (r.passed, r.message)) =
      [(true, gradePassMsg "toString" "B")]
    ∧ checkOverallGrade ⟨{ minGrade := some "toString" }⟩
        [⟨"overall_grade", none, none, some "B"⟩] = [] := by
  refine ⟨rfl, ?_, ?_⟩ <;> decide

/-- C4 (amended): under a policy with `minGrade` set, both grade
evaluators are exactly the single-record function of the first
`overall_grade` record given by `gradeResultSpec`/`gradeViolSpec`, whose
misconfiguration branches fire exactly when the JS property lookup is
`undefined` — i.e. when the grade is outside the vocabulary AND its name
is not an `Object.prototype` member; at most one result is emitted per
call, and the two misconfiguration messages are distinct for all
grades. -/
theorem claim_C4_overall_grade (cfg : RulesConfig) (results : List ScanItem) (g : String)
    (hcfg : cfg.rules.minGrade = some g) (hgne : ¬g = "") :
    getOverallGradeResults cfg results =
      gradeResultSpec g (results.find? (fun i => i.id == "overall_grade"))
    ∧ checkOverallGrade cfg results =
      gradeViolSpec g (results.find? (fun i => i.id == "overall_grade"))
    ∧ (getOverallGradeResults cfg results).length ≤ 1
    ∧ (checkOverallGrade cfg results).length ≤ 1
    ∧ (∀ a b : String, ¬gradeInvalidMinMsg a = gradeUnknownMsg b)
    ∧ (∀ (k : String) (n : Nat), gradeLookup k = GradeLookup.rank n ↔ gradeRank k = some n)
    ∧ (∀ k : String, gradeLookup k = GradeLookup.undef ↔
        (gradeRank k = none ∧ OBJECT_PROTO_MEMBERS k = none)) := by
  have hgE : g.data.isEmpty = false := by
    rcases h : g.data.isEmpty
    · rfl
    · exact absurd ((strDataEmpty_iff g).mp h) hgne
  have heq1 : getOverallGradeResults cfg results =
      gradeResultSpec g (results.find? (fun i => i.id == "overall_grade")) := by
    unfold getOverallGradeResults gradeResultSpec
    rw [hcfg]
    dsimp only
    rw [hgE]
    simp only [Bool.false_eq_true, if_false]
  have heq2 : checkOverallGrade cfg results =
      gradeViolSpec g (results.find? (fun i => i.id == "overall_grade")) := by
    unfold checkOverallGrade gradeViolSpec
    rw [hcfg]
    dsimp only
    rw [hgE]
    simp only [Bool.false_eq_true, if_false]
  refine ⟨heq1, heq2, ?_, ?_, ?_, ?_, ?_⟩
  · rw [heq1]; exact gradeResultSpec_len g _
  · rw [heq2]; exact gradeViolSpec_len g _
  · intro a b h
    have h2 : (gradeInvalidMinMsg a).data.head? = (gradeUnknownMsg b).data.head? := by
      rw [h]
    unfold gradeInvalidMinMsg gradeUnknownMsg at h2
    rw [String.data_append, String.data_append, List.head?_append, List.head?_append] at h2
    have hI : ("Invalid minimum grade specified: ").data.head? = some 'I' := rfl
    have hU : ("Unknown grade received: ").data.head? = some 'U' := rfl
    rw [hI, hU] at h2
    simp at h2
  · intro k n
    unfold gradeLookup
    rcases h1 : gradeRank k with _ | m
    · rcases h2 : OBJECT_PROTO_MEMBERS k with _ | s <;> simp
    · simp
  · intro k
    unfold gradeLookup
    rcases h1 : gradeRank k with _ | m
    · rcases h2 : OBJECT_PROTO_MEMBERS k with _ | s <;> simp [h2]
    · simp

/-- Witness for C4: Scenario A — minimum `A`, actual `B`, one failing
result below the threshold, and the lookup of `A` is its own rank 8. -/
theorem claim_C4_overall_grade_witness :
    getOverallGradeResults ⟨{ minGrade := some "A" }⟩
        [⟨"overall_grade", none, none, some "B"⟩] =
      gradeResultSpec "A"
        ([(⟨"overall_grade", none, none, some "B"⟩ : ScanItem)].find?
          (fun i => i.id == "overall_grade"))
    ∧ (checkOverallGrade ⟨{ minGrade := some "A" }⟩
        [⟨"overall_grade", none, none, some "B"⟩]).length ≤ 1
    ∧ (gradeLookup "A" = GradeLookup.rank 8 ↔ gradeRank "A" = some 8) := by
  have h := claim_C4_overall_grade ⟨{ minGrade := some "A" }⟩
    [⟨"overall_grade", none, none, some "B"⟩] "A" rfl (by decide)
  exact ⟨h.1, h.2.2.2.1, h.2.2.2.2.2.1 "A" 8⟩

/-! ### The certificate-expiry rule -/

/-- The spec's full-mode outcome of the certificate-expiry rule given
the two date strings: one invalid-format failure when either date fails
to parse, otherwise the first applicable of not-yet-valid, expired,
expiring-within-threshold, else a passing result. -/
def certResultSpec (maxDays now : Int) (nbs nas : String) (ip : Option String) :
    List AuditResult :=
  match parseCertificateDate nbs false, parseCertificateDate nas true with
  | some notBeforeDate, some notAfterDate =>
    if now < notBeforeDate then
      [{ rule := "certificate-expiry", passed := false,
         message := certNotYetValidMsg nbs ip,
         details := certTimeDetails nbs nas now ip }]
    else if notAfterDate < now then
      [{ rule := "certificate-expiry", passed := false,
         message := certExpiredMsg nas ip,
         details := certTimeDetails nbs nas now ip }]
    else
      let daysUntilExpiry := daysUntil notAfterDate now
      if fracLt ⟨0, 1⟩ daysUntilExpiry && fracLe daysUntilExpiry ⟨maxDays, 1⟩ then
        [{ rule := "certificate-expiry", passed := false,
           message := certExpiresSoonMsg (fracFloor daysUntilExpiry) maxDays nas ip,
           details := certExpiryDetails nbs nas (fracFloor daysUntilExpiry) maxDays ip }]
      else
        [{ rule := "certificate-expiry", passed := true,
           message := certValidMsg (fracFloor daysUntilExpiry) maxDays ip,
           details := certExpiryDetails nbs nas (fracFloor daysUntilExpiry) maxDays ip }]
  | _, _ =>
    [{ rule := "certificate-expiry", passed := false,
       message := certInvalidMsg ip,
       details := certInvalidDetails nbs nas ip }]

/-- The spec's outcome is always exactly one record. -/
theorem certResultSpec_len (maxDays now : Int) (nbs nas : String) (ip : Option String) :
    (certResultSpec maxDays now nbs nas ip).length = 1 := by
  unfold certResultSpec
  rcases parseCertificateDate nbs false with _ | t1
  · rfl
  · rcases parseCertificateDate nas true with _ | t2
    · rfl
    · dsimp only
      split_ifs <;> rfl

/-- Full-mode characterization of the certificate-expiry evaluator when
both date records are present with non-empty findings. -/
theorem getCertExpiry_char (cfg : RulesConfig) (results : List ScanItem) (now maxDays : Int)
    (nbItem naItem : ScanItem) (nbs nas : String)
    (hcfg : cfg.rules.maxCertificateExpiry = some maxDays)
    (hnb : results.find? (fun i => i.id == "cert_notBefore") = some nbItem)
    (hna : results.find? (fun i => i.id == "cert_notAfter") = some naItem)
    (hnbf : nbItem.finding = some nbs) (hnaf : naItem.finding = some nas)
    (hn1 : ¬nbs = "") (hn2 : ¬nas = "") :
    getCertificateExpiryResults cfg now results =
      certResultSpec maxDays now nbs nas naItem.ip := by
  have hE1 : nbs.data.isEmpty = false := by
    rcases h : nbs.data.isEmpty
    · rfl
    · exact absurd ((strDataEmpty_iff nbs).mp h) hn1
  have hE2 : nas.data.isEmpty = false := by
    rcases h : nas.data.isEmpty
    · rfl
    · exact absurd ((strDataEmpty_iff nas).mp h) hn2
  unfold getCertificateExpiryResults
  rw [hcfg]
  dsimp only
  rw [hnb, hna]
  dsimp only
  rw [hnbf, hnaf]
  dsimp only
  rw [hE1, hE2]
  simp only [Bool.or_self, Bool.false_eq_true, if_false]
  rfl

/-- For a non-negative fraction over a positive denominator, `Math.floor`
coincides with truncation toward zero. -/
theorem fracFloor_eq_trunc (f : Frac) (hn : 0 ≤ f.num) (hd : 0 ≤ f.den) :
    fracFloor f = Int.tdiv f.num f.den := by
  unfold fracFloor
  exact Int.fdiv_eq_tdiv hn hd

/-- C5: with `maxCertificateExpiry` configured, the certificate-expiry
evaluator emits nothing — in both modes — when either date record is
missing or its finding text is falsy; when both are present with
non-empty text, full mode is exactly the spec's priority chain on the
parsed dates; an unparseable date yields exactly one failing result
whose message contains "Invalid certificate date format" and stops
further checks; parsing appends `:00`/`:59` seconds and a UTC
designator; days remaining are exact fractional days, the threshold
test is the rational `0 < d ≤ max`, and the reported day count is
truncation toward zero. -/
theorem claim_C5_certificate_expiry (cfg : RulesConfig) (results : List ScanItem)
    (now maxDays : Int)
    (hcfg : cfg.rules.maxCertificateExpiry = some maxDays) :
    (∀ (nbItem naItem : ScanItem) (nbs nas : String),
      results.find? (fun i => i.id == "cert_notBefore") = some nbItem →
      results.find? (fun i => i.id == "cert_notAfter") = some naItem →
      nbItem.finding = some nbs → naItem.finding = some nas →
      ¬nbs = "" → ¬nas = "" →
      getCertificateExpiryResults cfg now results =
        certResultSpec maxDays now nbs nas naItem.ip
      ∧ ((parseCertificateDate nbs false = none ∨ parseCertificateDate nas true = none) →
          getCertificateExpiryResults cfg now results =
            [{ rule := "certificate-expiry", passed := false,
               message := certInvalidMsg naItem.ip,
               details := certInvalidDetails nbs nas naItem.ip }]
          ∧ containsSub ("Invalid certificate date format".data)
              (certInvalidMsg naItem.ip).data = true))
    ∧ (results.find? (fun i => i.id == "cert_notBefore") = none →
        getCertificateExpiryResults cfg now results = []
        ∧ checkCertificateExpiry cfg now results = [])
    ∧ (results.find? (fun i => i.id == "cert_notAfter") = none →
        getCertificateExpiryResults cfg now results = []
        ∧ checkCertificateExpiry cfg now results = [])
    ∧ (∀ item : ScanItem,
        results.find? (fun i => i.id == "cert_notBefore") = some item →
        strTruthy item.finding = false →
        getCertificateExpiryResults cfg now results = []
        ∧ checkCertificateExpiry cfg now results = [])
    ∧ (∀ item : ScanItem,
        results.find? (fun i => i.id == "cert_notAfter") = some item →
        strTruthy item.finding = false →
        getCertificateExpiryResults cfg now results = []
        ∧ checkCertificateExpiry cfg now results = [])
    ∧ (∀ t b, parseCertificateDate t b =
        parseIsoDateTime (String.mk (jsReplaceFirstChar ' ' 'T' t.data) ++
          (if b then ":59" else ":00") ++ "Z"))
    ∧ (∀ t2 n : Int, (daysUntil t2 n).val = ((t2 - n : Int) : ℚ) / (86400000 : ℚ))
    ∧ (∀ d : Frac, 0 < d.den →
        ((fracLt ⟨0, 1⟩ d && fracLe d ⟨maxDays, 1⟩) = true ↔
          (0 < d.val ∧ d.val ≤ (maxDays : ℚ))))
    ∧ (∀ f : Frac, 0 ≤ f.num → 0 ≤ f.den → fracFloor f = Int.tdiv f.num f.den) := by
  have hmain : ∀ (nbItem naItem : ScanItem) (nbs nas : String),
      results.find? (fun i => i.id == "cert_notBefore") = some nbItem →
      results.find? (fun i => i.id == "cert_notAfter") = some naItem →
      nbItem.finding = some nbs → naItem.finding = some nas →
      ¬nbs = "" → ¬nas = "" →
      getCertificateExpiryResults cfg now results =
        certResultSpec maxDays now nbs nas naItem.ip
      ∧ ((parseCertificateDate nbs false = none ∨ parseCertificateDate nas true = none) →
          getCertificateExpiryResults cfg now results =
            [{ rule := "certificate-expiry", passed := false,
               message := certInvalidMsg naItem.ip,
               details := certInvalidDetails nbs nas naItem.ip }]
          ∧ containsSub ("Invalid certificate date format".data)
              (certInvalidMsg naItem.ip).data = true) := by
    intro nbItem naItem nbs nas hnb hna hnbf hnaf hn1 hn2
    have heq := getCertExpiry_char cfg results now maxDays nbItem naItem nbs nas
      hcfg hnb hna hnbf hnaf hn1 hn2
    refine ⟨heq, ?_⟩
    intro hor
    constructor
    · rw [heq]
      unfold certResultSpec
      rcases hpb : parseCertificateDate nbs false with _ | t1
      · rfl
      · rcases hpa : parseCertificateDate nas true with _ | t2
        · rfl
        · exfalso
          rcases hor with h | h
          · rw [hpb] at h; cases h
          · rw [hpa] at h; cases h
    · rw [containsSub_iff]
      refine ⟨[], (formatIpSuffix naItem.ip).data, ?_⟩
      rw [List.nil_append]
      have : certInvalidMsg naItem.ip =
          "Invalid certificate date format" ++ formatIpSuffix naItem.ip := rfl
      rw [this, String.data_append]
  have hnbnone : results.find? (fun i => i.id == "cert_notBefore") = none →
      getCertificateExpiryResults cfg now results = []
      ∧ checkCertificateExpiry cfg now results = [] := by
    intro h
    constructor
    · unfold getCertificateExpiryResults
      rw [hcfg]
      dsimp only
      rw [h]
    · unfold checkCertificateExpiry
      rw [hcfg]
      dsimp only
      rw [h]
  have hnanone : results.find? (fun i => i.id == "cert_notAfter") = none →
      getCertificateExpiryResults cfg now results = []
      ∧ checkCertificateExpiry cfg now results = [] := by
    intro h
    constructor
    · unfold getCertificateExpiryResults
      rw [hcfg]
      dsimp only
      rw [h]
      rcases h1 : results.find? (fun i => i.id == "cert_notBefore") with _ | nbI <;>
        (try rw [h1]) <;> try rfl
    · unfold checkCertificateExpiry
      rw [hcfg]
      dsimp only
      rw [h]
      rcases h1 : results.find? (fun i => i.id == "cert_notBefore") with _ | nbI <;>
        (try rw [h1]) <;> try rfl
  have hnbfalsy : ∀ item : ScanItem,
      results.find? (fun i => i.id == "cert_notBefore") = some item →
      strTruthy item.finding = false →
      getCertificateExpiryResults cfg now results = []
      ∧ checkCertificateExpiry cfg now results = [] := by
    intro item hfind htr
    rcases hfi : item.finding with _ | s
    · constructor
      · unfold getCertificateExpiryResults
        rw [hcfg]
        dsimp only
        rw [hfind]
        rcases h2 : results.find? (fun i => i.id == "cert_notAfter") with _ | naI <;>
          (try rw [h2]) <;> try rfl
        dsimp only
        rw [hfi]
      · unfold checkCertificateExpiry
        rw [hcfg]
        dsimp only
        rw [hfind]
        rcases h2 : results.find? (fun i => i.id == "cert_notAfter") with _ | naI <;>
          (try rw [h2]) <;> try rfl
        dsimp only
        rw [hfi]
    · have hs : s.data.isEmpty = true := by
        rw [hfi] at htr
        unfold strTruthy at htr
        simpa using htr
      constructor
      · unfold getCertificateExpiryResults
        rw [hcfg]
        dsimp only
        rw [hfind]
        rcases h2 : results.find? (fun i => i.id == "cert_notAfter") with _ | naI <;>
          (try rw [h2]) <;> try rfl
        dsimp only
        rw [hfi]
        rcases h3 : naI.finding with _ | t <;> (try rw [h3]) <;> try rfl
        dsimp only
        simp [hs]
      · unfold checkCertificateExpiry
        rw [hcfg]
        dsimp only
        rw [hfind]
        rcases h2 : results.find? (fun i => i.id == "cert_notAfter") with _ | naI <;>
          (try rw [h2]) <;> try rfl
        dsimp only
        rw [hfi]
        rcases h3 : naI.finding with _ | t <;> (try rw [h3]) <;> try rfl
        dsimp only
        simp [hs]
  have hnafalsy : ∀ item : ScanItem,
      results.find? (fun i => i.id == "cert_notAfter") = some item →
      strTruthy item.finding = false →
      getCertificateExpiryResults cfg now results = []
      ∧ checkCertificateExpiry cfg now results = [] := by
    intro item hfind htr
    rcases hfi : item.finding with _ | t
    · constructor
      · unfold getCertificateExpiryResults
        rw [hcfg]
        dsimp only
        rw [hfind]
        rcases h1 : results.find? (fun i => i.id == "cert_notBefore") with _ | nbI <;>
          (try rw [h1]) <;> try rfl
        dsimp only
        rw [hfi]
        rcases h3 : nbI.finding with _ | s <;> (try rw [h3]) <;> try rfl
      · unfold checkCertificateExpiry
        rw [hcfg]
        dsimp only
        rw [hfind]
        rcases h1 : results.find? (fun i => i.id == "cert_notBefore") with _ | nbI <;>
          (try rw [h1]) <;> try rfl
        dsimp only
        rw [hfi]
        rcases h3 : nbI.finding with _ | s <;> (try rw [h3]) <;> try rfl
    · have ht : t.data.isEmpty = true := by
        rw [hfi] at htr
        unfold strTruthy at htr
        simpa using htr
      constructor
      · unfold getCertificateExpiryResults
        rw [hcfg]
        dsimp only
        rw [hfind]
        rcases h1 : results.find? (fun i => i.id == "cert_notBefore") with _ | nbI <;>
          (try rw [h1]) <;> try rfl
        dsimp only
        rw [hfi]
        rcases h3 : nbI.finding with _ | s <;> (try rw [h3]) <;> try rfl
        dsimp only
        simp [ht]
      · unfold checkCertificateExpiry
        rw [hcfg]
        dsimp only
        rw [hfind]
        rcases h1 : results.find? (fun i => i.id == "cert_notBefore") with _ | nbI <;>
          (try rw [h1]) <;> try rfl
        dsimp only
        rw [hfi]
        rcases h3 : nbI.finding with _ | s <;> (try rw [h3]) <;> try rfl
        dsimp only
        simp [ht]
  have hdays : ∀ t2 n : Int, (daysUntil t2 n).val = ((t2 - n : Int) : ℚ) / (86400000 : ℚ) := by
    intro t2 n
    unfold daysUntil Frac.val MILLISECONDS_PER_DAY
    norm_num
  have hthr : ∀ d : Frac, 0 < d.den →
      ((fracLt ⟨0, 1⟩ d && fracLe d ⟨maxDays, 1⟩) = true ↔
        (0 < d.val ∧ d.val ≤ (maxDays : ℚ))) := by
    intro d hd
    rw [Bool.and_eq_true, fracLt_iff_val _ _ (by norm_num) hd, fracLe_iff_val _ _ hd (by norm_num)]
    unfold Frac.val
    norm_num
  exact ⟨hmain, hnbnone, hnanone, hnbfalsy, hnafalsy, fun t b => rfl, hdays, hthr,
    fracFloor_eq_trunc⟩

/-- Witness for C5: a certificate valid from 2030-01-05 to 2030-01-10
inspected at 2030-01-07, threshold 30 days; and the same policy over an
empty findings list emits nothing. -/
theorem claim_C5_certificate_expiry_witness :
    (getCertificateExpiryResults ⟨{ maxCertificateExpiry := some 30 }⟩ 1893974400000
        [⟨"cert_notBefore", none, none, some "2030-01-05 00:00"⟩,
         ⟨"cert_notAfter", none, none, some "2030-01-10 00:00"⟩] =
      certResultSpec 30 1893974400000 "2030-01-05 00:00" "2030-01-10 00:00" none)
    ∧ getCertificateExpiryResults ⟨{ maxCertificateExpiry := some 30 }⟩
        1893974400000 [] = [] := by
  have h := claim_C5_certificate_expiry ⟨{ maxCertificateExpiry := some 30 }⟩
    [⟨"cert_notBefore", none, none, some "2030-01-05 00:00"⟩,
     ⟨"cert_notAfter", none, none, some "2030-01-10 00:00"⟩]
    1893974400000 30 rfl
  have h0 := claim_C5_certificate_expiry ⟨{ maxCertificateExpiry := some 30 }⟩ []
    1893974400000 30 rfl
  refine ⟨?_, ?_⟩
  · exact (h.1 ⟨"cert_notBefore", none, none, some "2030-01-05 00:00"⟩
      ⟨"cert_notAfter", none, none, some "2030-01-10 00:00"⟩
      "2030-01-05 00:00" "2030-01-10 00:00"
      (by decide) (by decide) rfl rfl (by decide) (by decide)).1
  · exact (h0.2.1 (by decide)).1

/-- Concrete policy for the certificate-rule mode-asymmetry example:
threshold 30 days. -/
def certAsymCfg : RulesConfig := ⟨{ maxCertificateExpiry := some 30 }⟩

/-- Concrete clock for the asymmetry example: 2030-01-01T00:00:00Z. -/
def certAsymNow : Int := 1893456000000

/-- Concrete findings for the asymmetry example: a certificate valid
2030-01-05 through 2030-01-10, so at the chosen clock it is both not
yet valid and expiring within the threshold. -/
def certAsymFindings : List ScanItem :=
  [⟨"cert_notBefore", none, none, some "2030-01-05 00:00"⟩,
   ⟨"cert_notAfter", none, none, some "2030-01-10 00:00"⟩]

/-- C6: the two certificate-expiry modes are asymmetric.  Whenever both
date records are present with non-empty text, full mode emits exactly
one result; violations-only mode checks not-yet-valid, expired and
expiring-soon independently and, on the concrete example, emits two
failing certificate-expiry results where full mode emits one. -/
theorem claim_C6_cert_mode_asymmetry :
    (∀ (cfg : RulesConfig) (results : List ScanItem) (now maxDays : Int)
      (nbItem naItem : ScanItem) (nbs nas : String),
      cfg.rules.maxCertificateExpiry = some maxDays →
      results.find? (fun i => i.id == "cert_notBefore") = some nbItem →
      results.find? (fun i => i.id == "cert_notAfter") = some naItem →
      nbItem.finding = some nbs → naItem.finding = some nas →
      ¬nbs = "" → ¬nas = "" →
      (getCertificateExpiryResults cfg now results).length = 1)
    ∧ (checkCertificateExpiry certAsymCfg certAsymNow certAsymFindings).length = 2
    ∧ (getCertificateExpiryResults certAsymCfg certAsymNow certAsymFindings).length = 1
    ∧ (∀ r ∈ checkCertificateExpiry certAsymCfg certAsymNow certAsymFindings,
        r.rule = "certificate-expiry") := by
  refine ⟨?_, by decide, by decide, by decide⟩
  intro cfg results now maxDays nbItem naItem nbs nas hcfg hnb hna hnbf hnaf hn1 hn2
  rw [getCertExpiry_char cfg results now maxDays nbItem naItem nbs nas
    hcfg hnb hna hnbf hnaf hn1 hn2]
  exact certResultSpec_len maxDays now nbs nas naItem.ip

/-- Witness for C6: the universal one-result property applied at the
concrete asymmetry example. -/
theorem claim_C6_cert_mode_asymmetry_witness :
    (getCertificateExpiryResults certAsymCfg certAsymNow certAsymFindings).length = 1 :=
  claim_C6_cert_mode_asymmetry.1 certAsymCfg certAsymFindings certAsymNow 30
    ⟨"cert_notBefore", none, none, some "2030-01-05 00:00"⟩
    ⟨"cert_notAfter", none, none, some "2030-01-10 00:00"⟩
    "2030-01-05 00:00" "2030-01-10 00:00"
    rfl (by decide) (by decide) rfl rfl (by decide) (by decide)

/-! ### The engine entry points -/

/-- C8: a non-array findings value (a single object, `null`, or any
other malformed value) makes both entry points return an empty result
list, for every policy and clock. -/
theorem claim_C8_non_array_input (cfg : RulesConfig) (now : Int) :
    audit cfg now FindingsInput.notArray = []
    ∧ getAuditResults cfg now FindingsInput.notArray = [] :=
  ⟨rfl, rfl⟩

/-- Filtering distributes into `flatMap`. -/
theorem flatMap_filter_comm {α β : Type} (l : List α) (f : α → List β) (p : β → Bool) :
    (l.flatMap f).filter p = l.flatMap (fun a => (f a).filter p) := by
  induction l with
  | nil => rfl
  | cons a t ih => simp [List.flatMap_cons, List.filter_append, ih]

/-- Mapping distributes into `flatMap`. -/
theorem flatMap_map_comm {α β γ : Type} (l : List α) (f : α → List β) (g : β → γ) :
    (l.flatMap f).map g = l.flatMap (fun a => (f a).map g) := by
  induction l with
  | nil => rfl
  | cons a t ih => simp [List.flatMap_cons, List.map_append, ih]

/-- The violations-only grade evaluator is the failing slice of the
full-mode one. -/
theorem grade_viol_proj (cfg : RulesConfig) (rs : List ScanItem) :
    checkOverallGrade cfg rs =
      ((getOverallGradeResults cfg rs).filter (fun r => !r.passed)).map toViolation := by
  unfold checkOverallGrade getOverallGradeResults
  rcases hm : cfg.rules.minGrade with _ | g
  · rfl
  · dsimp only
    rcases hge : g.data.isEmpty
    · simp only [hge, Bool.false_eq_true, if_false]
      rcases hfind : rs.find? (fun i => i.id == "overall_grade") with _ | item <;>
        try rw [hfind]
      · rfl
      · dsimp only
        rcases hf : item.finding with _ | a <;> try rw [hf]
        · rfl
        · dsimp only
          rcases hfe : a.data.isEmpty
          · simp only [hfe, Bool.false_eq_true, if_false]
            split_ifs <;> simp [toViolation]
          · simp [hfe]
    · simp [hge]

/-- The violations-only TLS-version evaluator is the failing slice of
the full-mode one. -/
theorem tls_viol_proj (cfg : RulesConfig) (rs : List ScanItem) :
    checkTlsVersion cfg rs =
      ((getTlsVersionResults cfg rs).filter (fun r => !r.passed)).map toViolation := by
  unfold checkTlsVersion getTlsVersionResults
  rcases hm : cfg.rules.minTlsVersion with _ | s
  · rfl
  · dsimp only
    rcases hse : s.data.isEmpty
    · simp only [hse, Bool.false_eq_true, if_false]
      rw [flatMap_filter_comm, flatMap_map_comm]
      apply flatMap_congr_mem
      intro item _
      rcases hg : tlsIdGroup item.id with _ | g
      · simp
      · rcases hO : isOffered (item.finding.getD "") <;>
          rcases hL : jsLt (tlsGroupVersion g) (jsParseFloat s) <;>
          simp [hO, hL, toViolation]
    · simp [hse]

/-- The violations-only blocked-cipher evaluator is the failing slice
of the full-mode one. -/
theorem cipher_viol_proj (cfg : RulesConfig) (rs : List ScanItem) :
    checkBlockedCiphers cfg rs =
      ((getBlockedCipherResults cfg rs).filter (fun r => !r.passed)).map toViolation := by
  unfold checkBlockedCiphers getBlockedCipherResults
  dsimp only
  by_cases hbl : (cfg.rules.blockedCiphers.getD []).length = 0
  · simp [hbl]
  · simp only [hbl, if_false]
    rw [flatMap_filter_comm, flatMap_map_comm]
    apply flatMap_congr_mem
    intro item _
    rcases hO : isOffered (item.finding.getD "") <;>
      rcases hfind : (cfg.rules.blockedCiphers.getD []).find?
        (fun blocked => upperContains (cipherNameOf item.id) blocked) with _ | b <;>
      simp [hO, hfind, toViolation]

/-- The violations-only forward-secrecy evaluator is the failing slice
of the full-mode one. -/
theorem fs_viol_proj (rs : List ScanItem) :
    checkForwardSecrecy rs =
      ((getForwardSecrecyResults rs).filter (fun r => !r.passed)).map toViolation := by
  unfold checkForwardSecrecy getForwardSecrecyResults
  rcases hfind : rs.find? pfsFinder with _ | it
  · rfl
  · dsimp only
    rcases h : sevProblem it.severity <;> simp [h, toViolation]

/-- C9: with no `maxCertificateExpiry` configured, violations-only mode
is exactly the failing subsequence of full mode — same order, same rule
tags, messages, and details, with only the `passed` flag dropped. -/
theorem claim_C9_audit_projection (cfg : RulesConfig) (now : Int) (input : FindingsInput)
    (hcert : cfg.rules.maxCertificateExpiry = none) :
    audit cfg now input =
      ((getAuditResults cfg now input).filter (fun r => !r.passed)).map toViolation := by
  cases input with
  | notArray => rfl
  | arr results =>
    unfold audit getAuditResults
    rw [hcert]
    simp only [Option.isSome_none, Bool.false_eq_true, if_false]
    rcases h1 : strTruthy cfg.rules.minGrade <;>
      rcases h2 : strTruthy cfg.rules.minTlsVersion <;>
      rcases h3 : blockedCiphersActive cfg <;>
      rcases h4 : boolTruthy cfg.rules.requireForwardSecrecy <;>
      simp [h1, h2, h3, h4, List.filter_append, List.map_append,
        grade_viol_proj, tls_viol_proj, cipher_viol_proj, fs_viol_proj]

/-- A policy activating all four non-certificate rules, for the C9
witness. -/
def c9WitnessCfg : RulesConfig :=
  ⟨{ minTlsVersion := some "1.2", blockedCiphers := some ["RC4"],
     requireForwardSecrecy := some true, minGrade := some "A" }⟩

/-- Findings exercising all four non-certificate rules, for the C9
witness. -/
def c9WitnessFindings : FindingsInput :=
  .arr [⟨"overall_grade", none, none, some "B"⟩,
        ⟨"TLS1", none, none, some "offered"⟩,
        ⟨"cipherlist_RC4", none, none, some "offered"⟩,
        ⟨"PFS_item", none, some "LOW", some "weak"⟩]

/-- Witness for C9: a policy activating all four non-certificate rules
over a findings list exercising each. -/
theorem claim_C9_audit_projection_witness :
    c9WitnessCfg.rules.maxCertificateExpiry = none
    ∧ audit c9WitnessCfg 0 c9WitnessFindings =
      ((getAuditResults c9WitnessCfg 0 c9WitnessFindings).filter
        (fun r => !r.passed)).map toViolation :=
  ⟨rfl, claim_C9_audit_projection c9WitnessCfg 0 c9WitnessFindings rfl⟩
